import Mathlib

/-!
# Verification of the Matchmaker tournament engine

A shallow embedding of the Matchmaker repository's core
(`tournament_core.py`, `tournament_calculators.py`,
`tournament_strategies.py`, `tournament_service.py`,
`tournament_repository.py`), together with theorems settling the frozen
claims about it.

Python `float` values (points, statistics) are modelled as exact
rationals (`ℚ`).  Uuid generation (`generate_id`) and timestamps
(`now_iso`) are external collaborators: ids are threaded as explicit
natural-number seeds rendered to strings, and timestamps are an opaque
constant.
-/

set_option linter.unusedVariables false

namespace Matchmaker

/-- The empty string, used as an out-of-range default for list reads. -/
def emptyId : String := ""

/-- Timestamps come from the external clock (`now_iso`, tournament_core.py
line 254); the core never inspects them, so they are modelled by an opaque
constant value. -/
def now_iso : String := ""

/-- `generate_id` (tournament_core.py line 249) returns a fresh uuid; it is
modelled by rendering an explicitly threaded counter. -/
def generate_id (n : Nat) : String := "m" ++ toString n

/-- `Match` dataclass (tournament_core.py lines 22-37).  The Python
`rankings` dict is an association list. -/
structure Match where
  id : String
  round_id : String
  tournament_id : String
  player_ids : List String
  scheduled_at : String := now_iso
  result : Option String := none
  winner_ids : Option (List String) := none
  rankings : Option (List (String × Nat)) := none
  auto_bye : Bool := false
  players_per_match : Nat := 2
deriving DecidableEq, Repr

/-- A default match value for out-of-range list reads. -/
def dummyMatch : Match :=
  { id := emptyId, round_id := emptyId, tournament_id := emptyId, player_ids := [] }

/-- `MatchResult` dataclass (tournament_core.py lines 40-47). -/
structure MatchResult where
  match_id : String
  winner_ids : List String
  rankings : List (String × Nat)
  is_draw : Bool := false
deriving DecidableEq, Repr

/-- `RoundConfig` dataclass (tournament_core.py lines 50-57).
`additional_params` is an open bag never read by the core and is omitted. -/
structure RoundConfig where
  tournament_id : String
  round_type : String
  players_per_match : Nat := 2
deriving DecidableEq, Repr

/-! ## Points calculators (tournament_calculators.py)

Each `calculate_points(player_id, match, result)` method is a pure
function; it is embedded as a Lean function of the same three inputs. -/

/-- `StandardPointsCalculator.calculate_points` (lines 13-24). -/
def standardCalculatePoints (player_id : String) (m : Match) (result : MatchResult) : ℚ :=
  if result.is_draw then 1 / (m.player_ids.length : ℚ)
  else if player_id ∈ result.winner_ids then 1
  else 0

/-- `ThreePointsCalculator.calculate_points` (lines 36-46). -/
def threePointCalculatePoints (player_id : String) (m : Match) (result : MatchResult) : ℚ :=
  if result.is_draw then 1
  else if player_id ∈ result.winner_ids then 3
  else 0

/-- `RankingPointsCalculator.calculate_points` (lines 59-72).
`max(0, total_players - rank + 1)` over Python ints is `max 0` over `ℤ`. -/
def rankingCalculatePoints (player_id : String) (m : Match) (result : MatchResult) : ℚ :=
  match result.rankings.lookup player_id with
  | none => 0
  | some rank =>
      ((max 0 ((m.player_ids.length : ℤ) - (rank : ℤ) + 1) : ℤ) : ℚ)

/-- `PercentagePointsCalculator.calculate_points` (lines 119-135). -/
def percentageCalculatePoints (player_id : String) (m : Match) (result : MatchResult) : ℚ :=
  match result.rankings.lookup player_id with
  | none => 0
  | some rank =>
      let total : ℤ := m.player_ids.length
      if 1 < total then ((total - (rank : ℤ) : ℤ) : ℚ) / ((total - 1 : ℤ) : ℚ) * 100
      else 0

/-- `EloCalculator.calculate_points` (lines 87-107) with `k_factor` as a
parameter (constructor default 32). -/
def eloCalculatePoints (k_factor : ℚ) (player_id : String) (m : Match)
    (result : MatchResult) : ℚ :=
  let actual_score : ℚ :=
    if result.is_draw then 1 / 2
    else if player_id ∈ result.winner_ids then 1
    else 0
  k_factor * (actual_score - 1 / 2)

/-- `CustomWeightedCalculator.calculate_points` (lines 156-169), with the
constructor's `weights` rank→points mapping as an association list. -/
def customWeightedCalculatePoints (weights : List (Nat × ℚ)) (player_id : String)
    (m : Match) (result : MatchResult) : ℚ :=
  if result.is_draw then
    (weights.map (fun w => w.2)).sum / (m.player_ids.length : ℚ)
  else
    match result.rankings.lookup player_id with
    | none => 0
    | some rank => (weights.lookup rank).getD 0

/-- The weight table of claim C9: `{1: 10, 2: 5, 3: 2}`. -/
def c9Weights : List (Nat × ℚ) := [(1, 10), (2, 5), (3, 2)]

/-- **C9.** A `CustomWeightedCalculator` configured with weights
`{1: 10, 2: 5, 3: 2}`, applied to a 3-participant match: a non-draw result
yields 10, 5, 2 points to the players ranked 1, 2, 3 respectively, and 0
to any player with no rank entry; a draw yields `17/3` to every player. -/
theorem customWeighted_c9 (m : Match) (r : MatchResult)
    (h3 : m.player_ids.length = 3) :
    (r.is_draw = true →
      ∀ p, customWeightedCalculatePoints c9Weights p m r = 17 / 3)
    ∧ (r.is_draw = false →
      ∀ p, (r.rankings.lookup p = some 1 →
              customWeightedCalculatePoints c9Weights p m r = 10)
         ∧ (r.rankings.lookup p = some 2 →
              customWeightedCalculatePoints c9Weights p m r = 5)
         ∧ (r.rankings.lookup p = some 3 →
              customWeightedCalculatePoints c9Weights p m r = 2)
         ∧ (r.rankings.lookup p = none →
              customWeightedCalculatePoints c9Weights p m r = 0)) := by
  constructor
  · intro hd p
    simp [customWeightedCalculatePoints, hd, h3, c9Weights]
    norm_num
  · intro hd p
    refine ⟨fun h1 => ?_, fun h2 => ?_, fun h3r => ?_, fun hn => ?_⟩
    · simp [customWeightedCalculatePoints, hd, h1, c9Weights, List.lookup]
    · simp [customWeightedCalculatePoints, hd, h2, c9Weights, List.lookup]
    · simp [customWeightedCalculatePoints, hd, h3r, c9Weights, List.lookup]
    · simp [customWeightedCalculatePoints, hd, hn, c9Weights, List.lookup]

/-- A concrete 3-player match used as the C9 witness input. -/
def c9M : Match :=
  { id := emptyId, round_id := emptyId, tournament_id := emptyId,
    player_ids := ["a", "b", "c"] }

/-- A concrete result used as the C9 witness input. -/
def c9R : MatchResult :=
  { match_id := emptyId, winner_ids := ["a"],
    rankings := [("a", 1), ("b", 2), ("c", 3)], is_draw := true }

/-- Witness for C9 at a concrete 3-player match and result. -/
theorem customWeighted_c9_witness :
    (c9R.is_draw = true →
      ∀ p, customWeightedCalculatePoints c9Weights p c9M c9R = 17 / 3)
    ∧ (c9R.is_draw = false →
      ∀ p, (c9R.rankings.lookup p = some 1 →
              customWeightedCalculatePoints c9Weights p c9M c9R = 10)
         ∧ (c9R.rankings.lookup p = some 2 →
              customWeightedCalculatePoints c9Weights p c9M c9R = 5)
         ∧ (c9R.rankings.lookup p = some 3 →
              customWeightedCalculatePoints c9Weights p c9M c9R = 2)
         ∧ (c9R.rankings.lookup p = none →
              customWeightedCalculatePoints c9Weights p c9M c9R = 0)) :=
  customWeighted_c9 c9M c9R (by decide)

/-! ## SingleEliminationStrategy (tournament_strategies.py lines 137-218) -/

/-- The grouping loop of `SingleEliminationStrategy.create_matches`
(lines 172-178) in the 2-player case: while at least two players remain,
pop the first and the last player of the pool to form a group. -/
def koGroups2Go : Nat → List String → List (List String) × List String
  | _, [] => ([], [])
  | _, [x] => ([], [x])
  | 0, a :: b :: t => ([], a :: b :: t)
  | fuel + 1, a :: b :: t =>
      let pr := koGroups2Go fuel (b :: t).dropLast
      ([a, (b :: t).getLastD emptyId] :: pr.1, pr.2)

def koGroups2 (l : List String) : List (List String) × List String :=
  koGroups2Go l.length l

/-- The fuel argument of `koGroups2Go` is irrelevant once it covers the
list length. -/
theorem koGroups2Go_fuel (fuel : Nat) (l : List String)
    (h : l.length ≤ fuel) : koGroups2Go fuel l = koGroups2Go l.length l := by
  induction fuel using Nat.strong_induction_on generalizing l with
  | _ fuel IH =>
    match l with
    | [] =>
      match fuel with
      | 0 => rfl
      | f + 1 => rfl
    | [x] =>
      match fuel with
      | 0 => simp at h
      | f + 1 => rfl
    | a :: b :: t =>
      simp only [List.length_cons] at h
      match fuel, h with
      | f + 1, h =>
        show ([a, (b :: t).getLastD emptyId] ::
            (koGroups2Go f (b :: t).dropLast).1,
            (koGroups2Go f (b :: t).dropLast).2) =
          koGroups2Go (t.length + 1 + 1) (a :: b :: t)
        have hmid : (b :: t).dropLast.length = t.length := by
          simp [List.length_dropLast]
        have h1 : koGroups2Go f (b :: t).dropLast =
            koGroups2Go (b :: t).dropLast.length (b :: t).dropLast :=
          IH f (Nat.lt_succ_self f) _ (by omega)
        have h2 : koGroups2Go (t.length + 1) (b :: t).dropLast =
            koGroups2Go (b :: t).dropLast.length (b :: t).dropLast :=
          IH (t.length + 1) (by omega) _ (by omega)
        show _ = ([a, (b :: t).getLastD emptyId] ::
            (koGroups2Go (t.length + 1) (b :: t).dropLast).1,
            (koGroups2Go (t.length + 1) (b :: t).dropLast).2)
        rw [h1, h2]

theorem koGroups2_nil : koGroups2 [] = ([], []) := rfl

theorem koGroups2_single (x : String) : koGroups2 [x] = ([], [x]) := rfl

theorem koGroups2_cons (a b : String) (t : List String) :
    koGroups2 (a :: b :: t) =
      ([a, (b :: t).getLastD emptyId] :: (koGroups2 (b :: t).dropLast).1,
       (koGroups2 (b :: t).dropLast).2) := by
  show ([a, (b :: t).getLastD emptyId] ::
      (koGroups2Go (t.length + 1) (b :: t).dropLast).1,
      (koGroups2Go (t.length + 1) (b :: t).dropLast).2) = _
  have hmid : (b :: t).dropLast.length = t.length := by
    simp [List.length_dropLast]
  have h1 : koGroups2Go (t.length + 1) (b :: t).dropLast =
      koGroups2Go (b :: t).dropLast.length (b :: t).dropLast :=
    koGroups2Go_fuel _ _ (by omega)
  rw [h1]
  rfl

/-- The grouping loop (lines 172-178) in the n-player case: while at least
`players_per_match` players remain, pop the first `players_per_match`
players.  The source loops forever when `players_per_match = 0`; that
unreachable configuration is mapped to an empty result here. -/
def koGroupsN (ppm : Nat) (l : List String) : List (List String) × List String :=
  if hppm : ppm = 0 then ([], l)
  else if hlen : l.length < ppm then ([], l)
  else
    let pr := koGroupsN ppm (l.drop ppm)
    (l.take ppm :: pr.1, pr.2)
termination_by l.length
decreasing_by
  simp only [List.length_drop]
  omega

/-- The grouping loop of `SingleEliminationStrategy.create_matches`
(lines 172-178): the branch on `players_per_match == 2` is hoisted out of
the loop (the loop body chooses the same branch in every iteration). -/
def koGroups (ppm : Nat) (l : List String) : List (List String) × List String :=
  if ppm = 2 then koGroups2 l else koGroupsN ppm l

/-- Builds the `Match` record the knockout strategy saves for one group
(lines 180-189). -/
def koMatch (tournament_id round_id : String) (ppm : Nat) (mid : Nat)
    (g : List String) : Match :=
  { id := generate_id mid, round_id := round_id, tournament_id := tournament_id,
    player_ids := g, scheduled_at := now_iso, players_per_match := ppm }

/-- `SingleEliminationStrategy.create_matches` (lines 152-218): the formed
matches and the waiting list.  `fresh` seeds the external id generator;
repository persistence (`save_match`) is the identity on this data. -/
def knockoutCreateMatches (tournament_id round_id : String)
    (available_players : List String) (config : RoundConfig) (fresh : Nat) :
    List Match × List String :=
  if available_players = [] then ([], [])
  else
    let players_per_match := config.players_per_match
    let gr := koGroups players_per_match available_players
    let created := gr.1.mapIdx (fun i g =>
      koMatch tournament_id round_id players_per_match (fresh + i) g)
    let waiting_players := gr.2
    if waiting_players.length = 1 ∧ created = [] then
      ([{ id := generate_id (fresh + created.length), round_id := round_id,
          tournament_id := tournament_id,
          player_ids := [waiting_players.getD 0 emptyId],
          scheduled_at := now_iso, result := some "auto",
          winner_ids := some [waiting_players.getD 0 emptyId],
          auto_bye := true, players_per_match := 1 }], [])
    else (created, waiting_players)

/-- Closed form of the 2-player knockout grouping loop: group `i` holds
the `i`-th and `(K-1-i)`-th players, and the middle player is left over
when `K` is odd. -/
theorem koGroups_two_eq (l : List String) :
    koGroups 2 l =
      ((List.range (l.length / 2)).map (fun i =>
          [l.getD i emptyId, l.getD (l.length - 1 - i) emptyId]),
       if l.length % 2 = 1 then [l.getD (l.length / 2) emptyId] else []) := by
  have H : ∀ (n : Nat) (l : List String), l.length = n →
      koGroups2 l =
        ((List.range (l.length / 2)).map (fun i =>
            [l.getD i emptyId, l.getD (l.length - 1 - i) emptyId]),
         if l.length % 2 = 1 then [l.getD (l.length / 2) emptyId] else []) := by
    intro n
    induction n using Nat.strong_induction_on with
    | _ n IH =>
      intro l hl
      match l with
      | [] => rw [koGroups2_nil]; simp
      | [x] => rw [koGroups2_single]; simp
      | a :: b :: t =>
        rw [koGroups2_cons]
        have hmidlen : (b :: t).dropLast.length = t.length := by
          simp [List.length_dropLast]
        have htn : t.length < n := by
          simp only [List.length_cons] at hl
          omega
        have hrec := IH ((b :: t).dropLast).length
          (by rw [hmidlen]; exact htn) ((b :: t).dropLast) rfl
        rw [hrec]
        dsimp only
        have hn2 : (a :: b :: t).length = t.length + 2 := by simp
        have hgroups : ([a, (b :: t).getLastD emptyId] ::
            (List.range ((b :: t).dropLast.length / 2)).map (fun i =>
              [(b :: t).dropLast.getD i emptyId,
               (b :: t).dropLast.getD ((b :: t).dropLast.length - 1 - i) emptyId])) =
            (List.range ((a :: b :: t).length / 2)).map (fun i =>
              [(a :: b :: t).getD i emptyId,
               (a :: b :: t).getD ((a :: b :: t).length - 1 - i) emptyId]) := by
          rw [hn2, hmidlen]
          have hhalf : (t.length + 2) / 2 = t.length / 2 + 1 := by omega
          rw [hhalf, List.range_succ_eq_map, List.map_cons]
          congr 1
          · -- head group: [a, last]
            have hlast : (b :: t).getLastD emptyId =
                (a :: b :: t).getD (t.length + 2 - 1 - 0) emptyId := by
              simp only [List.getLastD_eq_getLast?, List.getLast?_eq_getElem?,
                List.getD_eq_getElem?_getD]
              have he : t.length + 2 - 1 - 0 = t.length + 1 := by omega
              rw [he]
              have h1 : (b :: t).length - 1 = t.length := by simp
              rw [h1]
              rw [List.getElem?_cons_succ]
            rw [hlast]
            rfl
          · -- remaining groups
            rw [List.map_map]
            apply List.map_congr_left
            intro i hi
            rw [List.mem_range] at hi
            have hi1 : i < (b :: t).dropLast.length := by rw [hmidlen]; omega
            have hi2 : i + 1 < (a :: b :: t).length := by
              simp only [List.length_cons]; omega
            have hi3 : t.length - 1 - i + 1 < (a :: b :: t).length := by
              simp only [List.length_cons]; omega
            have hi4 : t.length - 1 - i < (b :: t).dropLast.length := by
              rw [hmidlen]; omega
            simp only [Function.comp, Nat.succ_eq_add_one]
            congr 1
            · -- first element of the pair
              rw [List.getD_eq_getElem _ _ hi1, List.getD_eq_getElem _ _ hi2]
              rw [List.getElem_dropLast]
              rfl
            · congr 1
              rw [List.getD_eq_getElem _ _ hi4, List.getD_eq_getElem _ _
                (show t.length + 2 - 1 - (i + 1) < (a :: b :: t).length by
                  simp only [List.length_cons]; omega)]
              have harg : (b :: t).dropLast.length - 1 - i = t.length - 1 - i := by
                rw [hmidlen]
              have harg2 : t.length + 2 - 1 - (i + 1) = t.length - 1 - i + 1 := by
                omega
              simp only [harg, harg2]
              rw [List.getElem_dropLast]
              rfl
        have hrest : (if (b :: t).dropLast.length % 2 = 1 then
              [(b :: t).dropLast.getD ((b :: t).dropLast.length / 2) emptyId]
            else []) =
            (if (a :: b :: t).length % 2 = 1 then
              [(a :: b :: t).getD ((a :: b :: t).length / 2) emptyId]
            else []) := by
          rw [hn2, hmidlen]
          have hpar : (t.length + 2) % 2 = t.length % 2 := by omega
          rw [hpar]
          by_cases hodd : t.length % 2 = 1
          · simp only [hodd, if_pos rfl]
            have hb1 : t.length / 2 < (b :: t).dropLast.length := by
              rw [hmidlen]; omega
            have hb2 : (t.length + 2) / 2 < (a :: b :: t).length := by
              simp only [List.length_cons]; omega
            rw [List.getD_eq_getElem _ _ hb1, List.getD_eq_getElem _ _ hb2]
            have hq : (t.length + 2) / 2 = t.length / 2 + 1 := by omega
            simp only [hq]
            rw [List.getElem_dropLast]
            rfl
          · simp [hodd]
        rw [hgroups, hrest]
  rw [koGroups, if_pos rfl]
  exact H l.length l rfl

/-- **C2.** For a list of `K` distinct eligible players and
`players_per_match = 2`, `SingleEliminationStrategy.create_matches` forms
exactly `⌊K/2⌋` regular (non-bye) two-player matches, the `i`-th pairing
the `i`-th and `(K-1-i)`-th players of the pool (first/last popping); when
`K` is odd and `K ≥ 3` exactly the middle player is returned waiting; when
`K = 1` the sole player receives a synthesized pre-resolved auto-bye match
(`result = "auto"`, `winner_ids = [player]`, `auto_bye = true`) and the
waiting list is empty. -/
theorem knockout_create_matches_c2 (tid rid : String) (available : List String)
    (fresh : Nat) (cfg : RoundConfig) (hnd : available.Nodup)
    (hppm : cfg.players_per_match = 2) :
    (available.length ≠ 1 →
      (knockoutCreateMatches tid rid available cfg fresh).1.length
          = available.length / 2
      ∧ (∀ mt ∈ (knockoutCreateMatches tid rid available cfg fresh).1,
          mt.auto_bye = false ∧ mt.player_ids.length = 2)
      ∧ (∀ i < available.length / 2,
          ((knockoutCreateMatches tid rid available cfg fresh).1.getD i
              dummyMatch).player_ids
            = [available.getD i emptyId,
               available.getD (available.length - 1 - i) emptyId])
      ∧ (available.length % 2 = 1 →
          (knockoutCreateMatches tid rid available cfg fresh).2
            = [available.getD (available.length / 2) emptyId])
      ∧ (available.length % 2 = 0 →
          (knockoutCreateMatches tid rid available cfg fresh).2 = []))
    ∧ (available.length = 1 →
      (knockoutCreateMatches tid rid available cfg fresh).1 =
        [{ id := generate_id fresh, round_id := rid, tournament_id := tid,
           player_ids := [available.getD 0 emptyId], scheduled_at := now_iso,
           result := some "auto",
           winner_ids := some [available.getD 0 emptyId],
           rankings := none, auto_bye := true, players_per_match := 1 }]
      ∧ (knockoutCreateMatches tid rid available cfg fresh).2 = []) := by
  by_cases hav : available = []
  · subst hav
    constructor
    · intro hK1
      refine ⟨by simp [knockoutCreateMatches], by simp [knockoutCreateMatches],
        ?_, by simp [knockoutCreateMatches], by simp [knockoutCreateMatches]⟩
      intro i hi
      simp at hi
    · intro h1
      simp at h1
  · have hout : knockoutCreateMatches tid rid available cfg fresh =
        (let gr := koGroups 2 available
         let created := gr.1.mapIdx (fun i g => koMatch tid rid 2 (fresh + i) g)
         if gr.2.length = 1 ∧ created = [] then
           ([{ id := generate_id (fresh + created.length), round_id := rid,
               tournament_id := tid,
               player_ids := [gr.2.getD 0 emptyId],
               scheduled_at := now_iso, result := some "auto",
               winner_ids := some [gr.2.getD 0 emptyId],
               auto_bye := true, players_per_match := 1 }], [])
         else (created, gr.2)) := by
      rw [knockoutCreateMatches, if_neg hav, hppm]
    rw [koGroups_two_eq] at hout
    set K := available.length with hK
    set P := (List.range (K / 2)).map (fun i =>
      [available.getD i emptyId, available.getD (K - 1 - i) emptyId]) with hP
    set W := if K % 2 = 1 then [available.getD (K / 2) emptyId] else []
      with hW
    have hPlen : P.length = K / 2 := by
      rw [hP, List.length_map, List.length_range]
    have hKpos : 1 ≤ K := by
      rw [hK]
      cases available with
      | nil => exact absurd rfl hav
      | cons x xs => simp
    constructor
    · -- K ≠ 1: the regular case
      intro hK1
      have hcond : ¬(W.length = 1 ∧
          (P.mapIdx (fun i g => koMatch tid rid 2 (fresh + i) g)) = []) := by
        rintro ⟨hw, hc⟩
        have hPnil : P = [] := by
          have := congrArg List.length hc
          rw [List.length_mapIdx] at this
          exact List.length_eq_zero.mp this
        have hK0 : K / 2 = 0 := by
          rw [← hPlen, hPnil]
          rfl
        rw [hW] at hw
        by_cases hpar : K % 2 = 1
        · have : K = 1 := by omega
          exact hK1 this
        · simp [hpar] at hw
      rw [hout]
      dsimp only
      rw [if_neg hcond]
      have hPD : ∀ i, i < K / 2 → P.getD i [] =
          [available.getD i emptyId, available.getD (K - 1 - i) emptyId] := by
        intro i hi
        rw [hP, List.getD_eq_getElem?_getD, List.getElem?_map,
          List.getElem?_range hi]
        rfl
      refine ⟨by rw [List.length_mapIdx, hPlen], ?_, ?_, ?_, ?_⟩
      · -- every created match is a regular 2-player match
        intro mt hmt
        rw [List.mem_iff_getElem] at hmt
        obtain ⟨i, hi, hmt⟩ := hmt
        rw [List.getElem_mapIdx] at hmt
        have hiP : i < P.length := by
          rw [List.length_mapIdx] at hi
          exact hi
        have hiK : i < K / 2 := by rw [← hPlen]; exact hiP
        have hPi : P[i] = [available.getD i emptyId,
            available.getD (K - 1 - i) emptyId] := by
          rw [← List.getD_eq_getElem _ _ hiP]
          exact hPD i hiK
        rw [← hmt]
        refine ⟨rfl, ?_⟩
        show (P[i] : List String).length = 2
        rw [hPi]
        rfl
      · -- the i-th match pairs the i-th and (K-1-i)-th players
        intro i hi
        have hiP : i < P.length := by rw [hPlen]; exact hi
        have hiC : i < (P.mapIdx (fun i g => koMatch tid rid 2 (fresh + i) g)).length := by
          rw [List.length_mapIdx]
          exact hiP
        rw [List.getD_eq_getElem _ _ hiC, List.getElem_mapIdx]
        have hPi : P[i] = [available.getD i emptyId,
            available.getD (K - 1 - i) emptyId] := by
          rw [← List.getD_eq_getElem _ _ hiP]
          exact hPD i hi
        show (P[i] : List String) = _
        exact hPi
      · -- K odd: the middle player waits
        intro hodd
        rw [hW, if_pos hodd]
      · -- K even: nobody waits
        intro heven
        rw [hW]
        simp [heven]
    · -- K = 1: the auto-bye case
      intro hK1
      have hP0 : P = [] := by
        rw [hP, hK1]
        rfl
      have hWv : W = [available.getD 0 emptyId] := by
        rw [hW, hK1]
        rfl
      rw [hout]
      dsimp only
      rw [hP0, hWv]
      rw [if_pos ⟨rfl, rfl⟩]
      constructor
      · rfl
      · rfl

/-- Witness for C2 at the concrete pool `["a", "b", "c", "d", "e"]`. -/
theorem knockout_create_matches_c2_witness :
    ((["a", "b", "c", "d", "e"] : List String).length ≠ 1 →
      (knockoutCreateMatches "t" "r" ["a", "b", "c", "d", "e"]
          { tournament_id := "t", round_type := "knockout",
            players_per_match := 2 } 0).1.length
          = (["a", "b", "c", "d", "e"] : List String).length / 2
      ∧ (∀ mt ∈ (knockoutCreateMatches "t" "r" ["a", "b", "c", "d", "e"]
          { tournament_id := "t", round_type := "knockout",
            players_per_match := 2 } 0).1,
          mt.auto_bye = false ∧ mt.player_ids.length = 2)
      ∧ (∀ i < (["a", "b", "c", "d", "e"] : List String).length / 2,
          ((knockoutCreateMatches "t" "r" ["a", "b", "c", "d", "e"]
              { tournament_id := "t", round_type := "knockout",
                players_per_match := 2 } 0).1.getD i dummyMatch).player_ids
            = [(["a", "b", "c", "d", "e"] : List String).getD i emptyId,
               (["a", "b", "c", "d", "e"] : List String).getD
                 ((["a", "b", "c", "d", "e"] : List String).length - 1 - i) emptyId])
      ∧ ((["a", "b", "c", "d", "e"] : List String).length % 2 = 1 →
          (knockoutCreateMatches "t" "r" ["a", "b", "c", "d", "e"]
              { tournament_id := "t", round_type := "knockout",
                players_per_match := 2 } 0).2
            = [(["a", "b", "c", "d", "e"] : List String).getD
                ((["a", "b", "c", "d", "e"] : List String).length / 2) emptyId])
      ∧ ((["a", "b", "c", "d", "e"] : List String).length % 2 = 0 →
          (knockoutCreateMatches "t" "r" ["a", "b", "c", "d", "e"]
              { tournament_id := "t", round_type := "knockout",
                players_per_match := 2 } 0).2 = []))
    ∧ ((["a", "b", "c", "d", "e"] : List String).length = 1 →
      (knockoutCreateMatches "t" "r" ["a", "b", "c", "d", "e"]
          { tournament_id := "t", round_type := "knockout",
            players_per_match := 2 } 0).1 =
        [{ id := generate_id 0, round_id := "r", tournament_id := "t",
           player_ids := [(["a", "b", "c", "d", "e"] : List String).getD 0 emptyId],
           scheduled_at := now_iso,
           result := some "auto",
           winner_ids := some [(["a", "b", "c", "d", "e"] : List String).getD 0 emptyId],
           rankings := none, auto_bye := true, players_per_match := 1 }]
      ∧ (knockoutCreateMatches "t" "r" ["a", "b", "c", "d", "e"]
          { tournament_id := "t", round_type := "knockout",
            players_per_match := 2 } 0).2 = []) :=
  knockout_create_matches_c2 "t" "r" ["a", "b", "c", "d", "e"] 0
    { tournament_id := "t", round_type := "knockout", players_per_match := 2 }
    (by decide) (by decide)

/-! ## RoundRobinStrategy (tournament_strategies.py lines 13-134) -/

/-- `RoundRobinStrategy._pair_already_played` (lines 126-130): the source's
pairing-history check is a stub that always returns `False`. -/
def pairAlreadyPlayed (tournament_id p1 p2 : String) : Bool := false

/-- One pass of the circle method (lines 63-79): pair the player at index
`i` with the player at index `n-1-i` for `i < n/2`; a pairing involving
the BYE sentinel, or one that already played (stubbed to never happen), is
skipped. -/
def rrPassPairs (tournament_id : String) (players : List String) :
    List (String × String) :=
  (List.range (players.length / 2)).filterMap (fun i =>
    let p1 := players.getD i emptyId
    let p2 := players.getD (players.length - 1 - i) emptyId
    if p1 ≠ "BYE" ∧ p2 ≠ "BYE" ∧ pairAlreadyPlayed tournament_id p1 p2 = false
    then some (p1, p2) else none)

/-- The rotation at the end of each pass (line 82):
`players.insert(1, players.pop())` keeps index 0 fixed and moves the last
element to index 1. -/
def rrRotate (players : List String) : List String :=
  match players with
  | [] => []
  | p0 :: rest =>
    match rest.getLast? with
    | none => [p0]
    | some last => p0 :: last :: rest.dropLast

/-- The pass loop of `RoundRobinStrategy.create_matches` (lines 62-82):
`count` passes, each contributing its kept pairs, rotating in between. -/
def rrRounds (tournament_id : String) : Nat → List String → List (String × String)
  | 0, _ => []
  | c + 1, players =>
      rrPassPairs tournament_id players ++
        rrRounds tournament_id c (rrRotate players)

/-- The padded player list of `RoundRobinStrategy.create_matches` (lines
51-56): a `"BYE"` sentinel is appended when the player count is odd. -/
def rrPadded (available_players : List String) : List String :=
  if available_players.length % 2 = 1 then available_players ++ ["BYE"]
  else available_players

/-- The full pair schedule generated by `RoundRobinStrategy.create_matches`
(lines 51-82): `n - 1` passes over the padded list. -/
def rrAllPairs (tournament_id : String) (available_players : List String) :
    List (String × String) :=
  rrRounds tournament_id ((rrPadded available_players).length - 1)
    (rrPadded available_players)

/-- `RoundRobinStrategy.create_matches` (lines 28-96) for
`players_per_match = 2`: the created `Match` records and the waiting
players.  `fresh` seeds the external id generator. -/
def rrCreateMatches (tournament_id round_id : String)
    (available_players : List String) (fresh : Nat) :
    List Match × List String :=
  if available_players = [] then ([], [])
  else
    let pairs := rrAllPairs tournament_id available_players
    let created := pairs.mapIdx (fun i pr =>
      ({ id := generate_id (fresh + i), round_id := round_id,
         tournament_id := tournament_id, player_ids := [pr.1, pr.2],
         scheduled_at := now_iso, players_per_match := 2 } : Match))
    let waiting := if available_players.length % 2 = 1 then
        available_players.filter (fun p =>
          !(pairs.any (fun pr => pr.1 = p || pr.2 = p)))
      else []
    (created, waiting)

/-! ### Position bookkeeping for the circle method

After `k` rotations the fixed head is still at index 0 and the tail is
rotated; `posIdx n k j` is the index in the *original* padded list of the
player sitting at position `j` during pass `k`, where `n` is the padded
length. -/

/-- Original index of the player at position `j` in pass `k` (`n` = padded
player count). -/
def posIdx (n k j : Nat) : Nat :=
  if j = 0 then 0 else ((j - 1 + k * (n - 2)) % (n - 1)) + 1

/-- The index pairs produced by pass `k`, before BYE filtering. -/
def passIdx (n k : Nat) : List (Nat × Nat) :=
  (List.range (n / 2)).map (fun i => (posIdx n k i, posIdx n k (n - 1 - i)))

/-- The index pairs of `c` consecutive passes starting at pass `k`. -/
def schedIdx (n : Nat) : Nat → Nat → List (Nat × Nat)
  | 0, _ => []
  | c + 1, k => passIdx n k ++ schedIdx n c (k + 1)

/-- The state of the player list at pass `k`: head fixed, tail rotated
left by `k * (n - 2)` (one `rrRotate` is a left-rotation of the tail by
its length minus one). -/
def playersAt (q : List String) (k : Nat) : List String :=
  match q with
  | [] => []
  | p0 :: t => p0 :: t.rotate (k * (t.length - 1))

theorem playersAt_zero (q : List String) : playersAt q 0 = q := by
  cases q with
  | nil => rfl
  | cons p0 t => simp [playersAt]

theorem playersAt_length (q : List String) (k : Nat) :
    (playersAt q k).length = q.length := by
  cases q with
  | nil => rfl
  | cons p0 t => simp [playersAt]

/-- Dropping all but the last element leaves exactly the last element. -/
theorem drop_length_sub_one {α : Type} (l : List α) (hl : l ≠ []) :
    l.drop (l.length - 1) = [l.getLast hl] := by
  induction l with
  | nil => exact absurd rfl hl
  | cons x t IH =>
    cases t with
    | nil => rfl
    | cons y s =>
      have h1 : (x :: y :: s).length - 1 = (y :: s).length := by simp
      rw [h1]
      have h2 : (x :: y :: s).drop ((y :: s).length) = (y :: s).drop ((y :: s).length - 1) := by
        simp
      rw [h2, IH (by simp)]
      rfl

/-- `rrRotate` on a list with nonempty tail is a left-rotation of the tail
by its length minus one. -/
theorem rrRotate_eq_rotate (p0 : String) (t : List String) (ht : t ≠ []) :
    rrRotate (p0 :: t) = p0 :: t.rotate (t.length - 1) := by
  obtain ⟨last, hlast⟩ : ∃ a, t.getLast? = some a := by
    cases htl : t.getLast? with
    | none =>
      rw [List.getLast?_eq_none_iff] at htl
      exact absurd htl ht
    | some a => exact ⟨a, rfl⟩
  simp only [rrRotate, hlast]
  congr 1
  rw [List.rotate_eq_drop_append_take (by omega : t.length - 1 ≤ t.length)]
  rw [drop_length_sub_one t ht, List.dropLast_eq_take]
  have : last = t.getLast ht := by
    rw [List.getLast?_eq_getLast t ht] at hlast
    exact (Option.some_inj.mp hlast).symm
  rw [this]
  rfl

/-- One source rotation advances the pass index by one. -/
theorem rrRotate_playersAt (q : List String) (k : Nat) (hq2 : 2 ≤ q.length) :
    rrRotate (playersAt q k) = playersAt q (k + 1) := by
  match q with
  | [] => simp at hq2
  | p0 :: t =>
    have ht : t ≠ [] := by
      intro h
      rw [h] at hq2
      simp at hq2
    have htlen : 1 ≤ t.length := by
      cases t with
      | nil => exact absurd rfl ht
      | cons x xs => simp
    have hrlen : (t.rotate (k * (t.length - 1))).length = t.length := by
      rw [List.length_rotate]
    have hrne : t.rotate (k * (t.length - 1)) ≠ [] := by
      intro h
      rw [h] at hrlen
      simp at hrlen
      omega
    show rrRotate (p0 :: t.rotate (k * (t.length - 1))) = _
    rw [rrRotate_eq_rotate p0 _ hrne, hrlen, List.rotate_rotate]
    have harith : k * (t.length - 1) + (t.length - 1) = (k + 1) * (t.length - 1) := by
      ring
    rw [harith]
    rfl

/-- The BYE/history filter applied to an index pair, mapped through the
original padded list `q`. -/
def idxFilter (tid : String) (q : List String) (pr : Nat × Nat) :
    Option (String × String) :=
  let p1 := q.getD pr.1 emptyId
  let p2 := q.getD pr.2 emptyId
  if p1 ≠ "BYE" ∧ p2 ≠ "BYE" ∧ pairAlreadyPlayed tid p1 p2 = false
  then some (p1, p2) else none

/-- Position-to-original-index characterization of the rotated list. -/
theorem playersAt_getD (q : List String) (k j : Nat) (hq2 : 2 ≤ q.length)
    (hj : j < q.length) :
    (playersAt q k).getD j emptyId = q.getD (posIdx q.length k j) emptyId := by
  match q with
  | [] => simp at hq2
  | p0 :: t =>
    cases j with
    | zero => simp [playersAt, posIdx]
    | succ j =>
      have hjt : j < t.length := by
        simp only [List.length_cons] at hj
        omega
      have hpos : posIdx (p0 :: t).length k (j + 1) =
          ((j + k * (t.length - 1)) % t.length) + 1 := by
        simp [posIdx]
      rw [hpos]
      show (t.rotate (k * (t.length - 1))).getD j emptyId = _
      rw [List.getD_eq_getElem?_getD, List.getElem?_rotate hjt,
        List.getD_eq_getElem?_getD, List.getElem?_cons_succ]

/-- One pass over the rotated list is the index-pair pass filtered through
the original list. -/
theorem rrPassPairs_playersAt (tid : String) (q : List String) (k : Nat)
    (hq2 : 2 ≤ q.length) :
    rrPassPairs tid (playersAt q k) =
      (passIdx q.length k).filterMap (idxFilter tid q) := by
  rw [rrPassPairs, passIdx, List.filterMap_map, playersAt_length]
  apply List.filterMap_congr
  intro i hi
  rw [List.mem_range] at hi
  have hin : i < q.length := by omega
  have hin2 : q.length - 1 - i < q.length := by omega
  rw [Function.comp]
  show (let p1 := (playersAt q k).getD i emptyId
        let p2 := (playersAt q k).getD (q.length - 1 - i) emptyId
        if p1 ≠ "BYE" ∧ p2 ≠ "BYE" ∧ pairAlreadyPlayed tid p1 p2 = false
        then some (p1, p2) else none) = _
  rw [idxFilter]
  dsimp only
  rw [playersAt_getD q k i hq2 hin, playersAt_getD q k (q.length - 1 - i) hq2 hin2]

/-- The whole pass loop is the index schedule filtered through the
original list. -/
theorem rrRounds_eq_schedIdx (tid : String) (q : List String) (c : Nat)
    (hq2 : 2 ≤ q.length) :
    ∀ k, rrRounds tid c (playersAt q k) =
      (schedIdx q.length c k).filterMap (idxFilter tid q) := by
  induction c with
  | zero => intro k; rfl
  | succ c IH =>
    intro k
    rw [rrRounds, schedIdx, List.filterMap_append,
      rrPassPairs_playersAt tid q k hq2, rrRotate_playersAt q k hq2, IH (k + 1)]

/-- `rrAllPairs` as the filtered index schedule. -/
theorem rrAllPairs_eq_schedIdx (tid : String) (available : List String)
    (hq2 : 2 ≤ (rrPadded available).length) :
    rrAllPairs tid available =
      (schedIdx (rrPadded available).length ((rrPadded available).length - 1)
        0).filterMap (idxFilter tid (rrPadded available)) := by
  rw [rrAllPairs]
  have h := rrRounds_eq_schedIdx tid (rrPadded available)
    ((rrPadded available).length - 1) hq2 0
  rw [playersAt_zero] at h
  exact h

/-! ### Counting core for the circle method

`m := n - 1` is odd when `n` is even; positions are analysed in
`ZMod (n - 1)`. -/

/-- Case analysis for equal unordered pairs of naturals. -/
theorem finset_pair_eq_cases {a b c d : ℕ}
    (h : ({a, b} : Finset ℕ) = {c, d}) :
    (a = c ∧ b = d) ∨ (a = d ∧ b = c) := by
  have ha : a ∈ ({c, d} : Finset ℕ) := by rw [← h]; simp
  have hb : b ∈ ({c, d} : Finset ℕ) := by rw [← h]; simp
  have hc : c ∈ ({a, b} : Finset ℕ) := by rw [h]; simp
  have hd : d ∈ ({a, b} : Finset ℕ) := by rw [h]; simp
  simp only [Finset.mem_insert, Finset.mem_singleton] at ha hb hc hd
  omega

/-- Two naturals below the modulus with equal casts are equal. -/
theorem natcast_inj_of_lt {m a b : ℕ} (ha : a < m) (hb : b < m)
    (h : (a : ZMod m) = b) : a = b := by
  rw [ZMod.natCast_eq_natCast_iff] at h
  have h2 : a % m = b % m := h
  rw [Nat.mod_eq_of_lt ha, Nat.mod_eq_of_lt hb] at h2
  exact h2

/-- `2` cancels modulo an odd modulus. -/
theorem cancel_two_of_odd {m a b : ℕ} (hm : m % 2 = 1)
    (h : (2 * a : ZMod m) = (2 * b : ZMod m)) : a ≡ b [MOD m] := by
  have hg : Nat.gcd m 2 = 1 := by
    rw [Nat.gcd_comm, Nat.gcd_rec, hm]
    decide
  have hcast : ((2 * a : ℕ) : ZMod m) = ((2 * b : ℕ) : ZMod m) := by
    push_cast
    exact h
  rw [ZMod.natCast_eq_natCast_iff] at hcast
  exact Nat.ModEq.cancel_left_of_coprime hg hcast

theorem posIdx_zero (n k : Nat) : posIdx n k 0 = 0 := rfl

theorem posIdx_pos (n k j : Nat) (hj : 1 ≤ j) : 1 ≤ posIdx n k j := by
  rw [posIdx, if_neg (by omega)]
  omega

theorem posIdx_lt (n k j : Nat) (hn2 : 2 ≤ n) : posIdx n k j < n := by
  rw [posIdx]
  by_cases hj : j = 0
  · rw [if_pos hj]; omega
  · rw [if_neg hj]
    have : (j - 1 + k * (n - 2)) % (n - 1) < n - 1 := Nat.mod_lt _ (by omega)
    omega

/-- The cast of `posIdx n k j - 1` for a non-head position. -/
theorem posIdx_sub_one_cast (n k j : Nat) (hn2 : 2 ≤ n) (hj : 1 ≤ j) :
    ((posIdx n k j - 1 : ℕ) : ZMod (n - 1)) =
      (j : ZMod (n - 1)) - 1 - (k : ZMod (n - 1)) := by
  rw [posIdx, if_neg (by omega)]
  have h1 : (j - 1 + k * (n - 2)) % (n - 1) + 1 - 1
      = (j - 1 + k * (n - 2)) % (n - 1) := by omega
  rw [h1]
  have h2 : (((j - 1 + k * (n - 2)) % (n - 1) : ℕ) : ZMod (n - 1)) =
      ((j - 1 + k * (n - 2) : ℕ) : ZMod (n - 1)) :=
    (ZMod.natCast_eq_natCast_iff _ _ _).mpr (Nat.mod_modEq _ _)
  rw [h2]
  have h3 : ((n - 2 : ℕ) : ZMod (n - 1)) = -1 := by
    have he : (n - 2 : ℕ) = (n - 1) - 1 := by omega
    rw [he, Nat.cast_sub (by omega), ZMod.natCast_self]
    ring
  push_cast [Nat.cast_sub hj]
  rw [h3]
  ring

/-- Equal non-head positions force equal linear forms modulo `n - 1`. -/
theorem posIdx_eq_cast (n k k' j j' : Nat) (hn2 : 2 ≤ n) (hj : 1 ≤ j)
    (hj' : 1 ≤ j') (h : posIdx n k j = posIdx n k' j') :
    (j : ZMod (n - 1)) - 1 - (k : ZMod (n - 1)) =
      (j' : ZMod (n - 1)) - 1 - (k' : ZMod (n - 1)) := by
  rw [← posIdx_sub_one_cast n k j hn2 hj, ← posIdx_sub_one_cast n k' j' hn2 hj',
    h]

/-- Cast of the mirrored position `n - 1 - x`. -/
theorem mirror_cast (n x : Nat) (hx : x ≤ n - 1) :
    ((n - 1 - x : ℕ) : ZMod (n - 1)) = -(x : ZMod (n - 1)) := by
  rw [Nat.cast_sub hx, ZMod.natCast_self]
  ring

/-- A congruence below the modulus is an equality (with the modulus itself
allowed on either side). -/
theorem modeq_bounded_eq {m a b : Nat} (hm : 1 ≤ m) (ha : a ≤ m) (hb : b ≤ m)
    (hab : 1 ≤ a) (hab' : 1 ≤ b) (h : a ≡ b [MOD m]) : a = b := by
  have hmod : a % m = b % m := h
  by_cases ham : a = m <;> by_cases hbm : b = m
  · omega
  · rw [ham, Nat.mod_self, Nat.mod_eq_of_lt (by omega)] at hmod
    omega
  · rw [hbm, Nat.mod_self, Nat.mod_eq_of_lt (by omega)] at hmod
    omega
  · rw [Nat.mod_eq_of_lt (by omega), Nat.mod_eq_of_lt (by omega)] at hmod
    exact hmod

/-- Within one pass, the two ends of a pairing are distinct positions of
the original list. -/
theorem posIdx_pair_ne (n k i : Nat) (hn2 : 2 ≤ n) (he : n % 2 = 0)
    (hi : i < n / 2) : posIdx n k i ≠ posIdx n k (n - 1 - i) := by
  by_cases hi0 : i = 0
  · subst hi0
    have := posIdx_pos n k (n - 1 - 0) (by omega)
    rw [posIdx_zero]
    omega
  · intro h
    have h1 : 1 ≤ i := by omega
    have h2 : 1 ≤ n - 1 - i := by omega
    have hc := posIdx_eq_cast n k k i (n - 1 - i) hn2 h1 h2 h
    rw [mirror_cast n i (by omega)] at hc
    have h2i : (2 * (i : ZMod (n - 1))) = 2 * ((0 : ℕ) : ZMod (n - 1)) := by
      push_cast
      linear_combination hc
    have hmod := cancel_two_of_odd (by omega : (n - 1) % 2 = 1) h2i
    have : i % (n - 1) = 0 % (n - 1) := hmod
    rw [Nat.zero_mod, Nat.mod_eq_of_lt (by omega : i < n - 1)] at this
    omega

/-- Within one pass, positions of the original list are hit injectively. -/
theorem posIdx_inj (n k j j' : Nat) (hn2 : 2 ≤ n) (hj : j < n) (hj' : j' < n)
    (h : posIdx n k j = posIdx n k j') : j = j' := by
  by_cases hj0 : j = 0 <;> by_cases hj'0 : j' = 0
  · omega
  · exfalso
    subst hj0
    rw [posIdx_zero] at h
    have := posIdx_pos n k j' (by omega)
    omega
  · exfalso
    subst hj'0
    rw [posIdx_zero] at h
    have := posIdx_pos n k j (by omega)
    omega
  · have hc := posIdx_eq_cast n k k j j' hn2 (by omega) (by omega) h
    have hjj : (j : ZMod (n - 1)) = (j' : ZMod (n - 1)) := by
      linear_combination hc
    rw [ZMod.natCast_eq_natCast_iff] at hjj
    exact modeq_bounded_eq (by omega) (by omega) (by omega) (by omega)
      (by omega) hjj

/-- **Injectivity of the circle schedule**: distinct `(pass, slot)` pairs
produce distinct unordered index pairs. -/
theorem pairF_posIdx_inj (n : Nat) (hn2 : 2 ≤ n) (he : n % 2 = 0)
    (k i k' i' : Nat) (hk : k < n - 1) (hi : i < n / 2) (hk' : k' < n - 1)
    (hi' : i' < n / 2)
    (heq : ({posIdx n k i, posIdx n k (n - 1 - i)} : Finset ℕ)
         = {posIdx n k' i', posIdx n k' (n - 1 - i')}) :
    k = k' ∧ i = i' := by
  have hmodd : (n - 1) % 2 = 1 := by omega
  by_cases hi0 : i = 0 <;> by_cases hi'0 : i' = 0
  · -- both head pairings
    subst hi0
    subst hi'0
    refine ⟨?_, rfl⟩
    rw [posIdx_zero, posIdx_zero] at heq
    rcases finset_pair_eq_cases heq with ⟨h1, h2⟩ | ⟨h1, h2⟩
    · have hc := posIdx_eq_cast n k k' (n - 1 - 0) (n - 1 - 0) hn2 (by omega)
        (by omega) h2
      have hkk : (k : ZMod (n - 1)) = (k' : ZMod (n - 1)) := by
        linear_combination -hc
      rw [ZMod.natCast_eq_natCast_iff] at hkk
      have : k % (n - 1) = k' % (n - 1) := hkk
      rw [Nat.mod_eq_of_lt hk, Nat.mod_eq_of_lt hk'] at this
      exact this
    · have := posIdx_pos n k' (n - 1 - 0) (by omega)
      omega
  · -- head against interior: impossible
    exfalso
    subst hi0
    rw [posIdx_zero] at heq
    rcases finset_pair_eq_cases heq with ⟨h1, h2⟩ | ⟨h1, h2⟩
    · have := posIdx_pos n k' i' (by omega)
      omega
    · have := posIdx_pos n k' (n - 1 - i') (by omega)
      omega
  · -- interior against head: impossible
    exfalso
    subst hi'0
    rw [posIdx_zero] at heq
    rcases finset_pair_eq_cases heq with ⟨h1, h2⟩ | ⟨h1, h2⟩
    · have := posIdx_pos n k i (by omega)
      omega
    · have := posIdx_pos n k (n - 1 - i) (by omega)
      omega
  · -- both interior
    have h1i : 1 ≤ i := by omega
    have h1i' : 1 ≤ i' := by omega
    have hile : i ≤ n / 2 - 1 := by omega
    have hile' : i' ≤ n / 2 - 1 := by omega
    rcases finset_pair_eq_cases heq with ⟨hA, hB⟩ | ⟨hA, hB⟩
    · -- components aligned
      have hcA := posIdx_eq_cast n k k' i i' hn2 h1i h1i' hA
      have hcB := posIdx_eq_cast n k k' (n - 1 - i) (n - 1 - i') hn2
        (by omega) (by omega) hB
      rw [mirror_cast n i (by omega), mirror_cast n i' (by omega)] at hcB
      have h2i : (2 * (i : ZMod (n - 1))) = 2 * (i' : ZMod (n - 1)) := by
        linear_combination hcA - hcB
      have hii := cancel_two_of_odd hmodd h2i
      have hmod : i % (n - 1) = i' % (n - 1) := hii
      rw [Nat.mod_eq_of_lt (by omega : i < n - 1),
        Nat.mod_eq_of_lt (by omega : i' < n - 1)] at hmod
      subst hmod
      refine ⟨?_, rfl⟩
      have hkk : (k : ZMod (n - 1)) = (k' : ZMod (n - 1)) := by
        linear_combination -hcA
      rw [ZMod.natCast_eq_natCast_iff] at hkk
      have : k % (n - 1) = k' % (n - 1) := hkk
      rw [Nat.mod_eq_of_lt hk, Nat.mod_eq_of_lt hk'] at this
      exact this
    · -- components swapped: impossible
      exfalso
      have hcA := posIdx_eq_cast n k k' i (n - 1 - i') hn2 h1i (by omega) hA
      have hcB := posIdx_eq_cast n k k' (n - 1 - i) i' hn2 (by omega) h1i' hB
      rw [mirror_cast n i' (by omega)] at hcA
      rw [mirror_cast n i (by omega)] at hcB
      have h2k : (2 * (k : ZMod (n - 1))) = 2 * (k' : ZMod (n - 1)) := by
        linear_combination -hcA - hcB
      have hkk := cancel_two_of_odd hmodd h2k
      have hmodk : k % (n - 1) = k' % (n - 1) := hkk
      rw [Nat.mod_eq_of_lt hk, Nat.mod_eq_of_lt hk'] at hmodk
      subst hmodk
      have hsum : ((i + i' : ℕ) : ZMod (n - 1)) = 0 := by
        push_cast
        linear_combination hcA
      rw [ZMod.natCast_zmod_eq_zero_iff_dvd] at hsum
      have := Nat.le_of_dvd (by omega) hsum
      omega

/-- The unordered index pair of pass `k`, slot `i`. -/
def circPair (n k i : Nat) : Finset ℕ := {posIdx n k i, posIdx n k (n - 1 - i)}

theorem circPair_mem_powersetCard (n k i : Nat) (hn2 : 2 ≤ n) (he : n % 2 = 0)
    (hi : i < n / 2) :
    circPair n k i ∈ (Finset.range n).powersetCard 2 := by
  rw [Finset.mem_powersetCard]
  constructor
  · intro x hx
    rw [circPair, Finset.mem_insert, Finset.mem_singleton] at hx
    rw [Finset.mem_range]
    rcases hx with hx | hx
    · rw [hx]; exact posIdx_lt n k i hn2
    · rw [hx]; exact posIdx_lt n k (n - 1 - i) hn2
  · exact Finset.card_pair (posIdx_pair_ne n k i hn2 he hi)

/-- Every 2-element subset of the indices is some `circPair`. -/
theorem circPair_surj (n : Nat) (hn2 : 2 ≤ n) (he : n % 2 = 0) (s : Finset ℕ)
    (hs : s ∈ (Finset.range n).powersetCard 2) :
    ∃ k i, k < n - 1 ∧ i < n / 2 ∧ circPair n k i = s := by
  classical
  set D := (Finset.range (n - 1)) ×ˢ (Finset.range (n / 2)) with hD
  set F : ℕ × ℕ → Finset ℕ := fun p => circPair n p.1 p.2 with hF
  have hinj : Set.InjOn F D := by
    intro p hp q hq hpq
    rw [Finset.mem_coe, hD, Finset.mem_product, Finset.mem_range,
      Finset.mem_range] at hp hq
    have := pairF_posIdx_inj n hn2 he p.1 p.2 q.1 q.2 hp.1 hp.2 hq.1 hq.2 hpq
    exact Prod.ext this.1 this.2
  have hsub : D.image F ⊆ (Finset.range n).powersetCard 2 := by
    intro s hs
    rw [Finset.mem_image] at hs
    obtain ⟨p, hp, hfp⟩ := hs
    rw [hD, Finset.mem_product, Finset.mem_range, Finset.mem_range] at hp
    rw [← hfp]
    exact circPair_mem_powersetCard n p.1 p.2 hn2 he hp.2
  have hcard : (D.image F).card = (n - 1) * (n / 2) := by
    rw [Finset.card_image_of_injOn hinj, hD, Finset.card_product,
      Finset.card_range, Finset.card_range]
  have hcard2 : ((Finset.range n).powersetCard 2).card = (n - 1) * (n / 2) := by
    rw [Finset.card_powersetCard, Finset.card_range, Nat.choose_two_right]
    obtain ⟨t, ht⟩ : ∃ t, n = 2 * t := ⟨n / 2, by omega⟩
    subst ht
    have h1 : 2 * t * (2 * t - 1) = 2 * (t * (2 * t - 1)) := by ring
    rw [h1, Nat.mul_div_cancel_left _ (by norm_num : 0 < 2)]
    rw [show (2 * t) / 2 = t by omega, Nat.mul_comm]
  have himage : D.image F = (Finset.range n).powersetCard 2 :=
    Finset.eq_of_subset_of_card_le hsub (by omega)
  rw [← himage, Finset.mem_image] at hs
  obtain ⟨p, hp, hfp⟩ := hs
  rw [hD, Finset.mem_product, Finset.mem_range, Finset.mem_range] at hp
  exact ⟨p.1, p.2, hp.1, hp.2, hfp⟩

/-- A `Nodup` list with a unique satisfying element has `countP` one. -/
theorem countP_eq_one_of_unique {α : Type} (p : α → Bool) (L : List α)
    (hnd : L.Nodup) (a : α) (ha : a ∈ L) (hpa : p a = true)
    (huniq : ∀ b ∈ L, p b = true → b = a) : L.countP p = 1 := by
  induction L with
  | nil => simp at ha
  | cons x t IH =>
    rw [List.nodup_cons] at hnd
    by_cases hpx : p x = true
    · have hxa : x = a := huniq x (by simp) hpx
      rw [List.countP_cons_of_pos _ _ hpx]
      have ht0 : t.countP p = 0 := by
        rw [List.countP_eq_zero]
        intro b hb hpb
        have : b = a := huniq b (by simp [hb]) hpb
        rw [this, ← hxa] at hb
        exact hnd.1 hb
      rw [ht0]
    · rw [List.countP_cons_of_neg _ _ (by simpa using hpx)]
      have hat : a ∈ t := by
        rcases List.mem_cons.mp ha with h | h
        · rw [h] at hpa; exact absurd hpa hpx
        · exact h
      exact IH hnd.2 hat (fun b hb hpb => huniq b (by simp [hb]) hpb)

theorem passIdx_length (n k : Nat) : (passIdx n k).length = n / 2 := by
  rw [passIdx, List.length_map, List.length_range]

theorem schedIdx_length (n : Nat) : ∀ c k, (schedIdx n c k).length = c * (n / 2)
  | 0, k => by
    rw [show schedIdx n 0 k = [] from rfl]
    simp
  | c + 1, k => by
    rw [schedIdx, List.length_append, passIdx_length, schedIdx_length n c (k + 1)]
    ring

theorem mem_schedIdx (n : Nat) :
    ∀ c k0 pr, pr ∈ schedIdx n c k0 →
      ∃ k i, k0 ≤ k ∧ k < k0 + c ∧ i < n / 2 ∧
        pr = (posIdx n k i, posIdx n k (n - 1 - i))
  | 0, _, _, h => by simp [schedIdx] at h
  | c + 1, k0, pr, h => by
    rw [schedIdx, List.mem_append] at h
    rcases h with h | h
    · rw [passIdx, List.mem_map] at h
      obtain ⟨i, hi, hpr⟩ := h
      rw [List.mem_range] at hi
      exact ⟨k0, i, le_refl _, by omega, hi, hpr.symm⟩
    · obtain ⟨k, i, hk1, hk2, hi, hpr⟩ := mem_schedIdx n c (k0 + 1) pr h
      exact ⟨k, i, by omega, by omega, hi, hpr⟩

/-- Per-pass count of a fixed unordered pair. -/
theorem countP_passIdx_pair (n : Nat) (hn2 : 2 ≤ n) (he : n % 2 = 0)
    (s : Finset ℕ) (k0 i0 : Nat) (hk0 : k0 < n - 1) (hi0 : i0 < n / 2)
    (hs : circPair n k0 i0 = s) (k : Nat) (hk : k < n - 1) :
    (passIdx n k).countP (fun pr => decide (({pr.1, pr.2} : Finset ℕ) = s)) =
      if k = k0 then 1 else 0 := by
  rw [passIdx, List.countP_map]
  by_cases hkk : k = k0
  · subst hkk
    rw [if_pos rfl]
    apply countP_eq_one_of_unique _ _ (List.nodup_range _) i0
      (List.mem_range.mpr hi0)
    · rw [Function.comp]
      simp only [decide_eq_true_eq]
      exact hs
    · intro b hb hpb
      rw [List.mem_range] at hb
      rw [Function.comp] at hpb
      simp only [decide_eq_true_eq] at hpb
      have hcb : circPair n k b = circPair n k i0 := by
        refine Eq.trans ?_ hs.symm
        rw [circPair]
        exact hpb
      exact (pairF_posIdx_inj n hn2 he k b k i0 hk hb hk0 hi0 hcb).2
  · rw [if_neg hkk]
    rw [List.countP_eq_zero]
    intro b hb hpb
    rw [List.mem_range] at hb
    rw [Function.comp] at hpb
    simp only [decide_eq_true_eq] at hpb
    have hcb : circPair n k b = circPair n k0 i0 := by
      refine Eq.trans ?_ hs.symm
      rw [circPair]
      exact hpb
    exact hkk (pairF_posIdx_inj n hn2 he k b k0 i0 hk hb hk0 hi0 hcb).1

/-- Schedule-wide count of a fixed unordered pair over a pass interval. -/
theorem countP_schedIdx_pair (n : Nat) (hn2 : 2 ≤ n) (he : n % 2 = 0)
    (s : Finset ℕ) (k0 i0 : Nat) (hk0 : k0 < n - 1) (hi0 : i0 < n / 2)
    (hs : circPair n k0 i0 = s) :
    ∀ c k, k + c ≤ n - 1 →
      (schedIdx n c k).countP
          (fun pr => decide (({pr.1, pr.2} : Finset ℕ) = s)) =
        if k ≤ k0 ∧ k0 < k + c then 1 else 0
  | 0, k, hb => by
    rw [show schedIdx n 0 k = [] from rfl]
    rw [List.countP_nil, if_neg (by omega)]
  | c + 1, k, hb => by
    rw [schedIdx, List.countP_append,
      countP_passIdx_pair n hn2 he s k0 i0 hk0 hi0 hs k (by omega),
      countP_schedIdx_pair n hn2 he s k0 i0 hk0 hi0 hs c (k + 1) (by omega)]
    split_ifs <;> omega

/-- **Exactly-once**: every 2-element index set appears exactly once in
the full schedule. -/
theorem schedIdx_count_pair_one (n : Nat) (hn2 : 2 ≤ n) (he : n % 2 = 0)
    (s : Finset ℕ) (hs : s ∈ (Finset.range n).powersetCard 2) :
    (schedIdx n (n - 1) 0).countP
      (fun pr => decide (({pr.1, pr.2} : Finset ℕ) = s)) = 1 := by
  obtain ⟨k0, i0, hk0, hi0, hcs⟩ := circPair_surj n hn2 he s hs
  rw [countP_schedIdx_pair n hn2 he s k0 i0 hk0 hi0 hcs (n - 1) 0 (by omega)]
  rw [if_pos (by omega)]

/-- Every index below `n` is hit by some position in every pass. -/
theorem posIdx_surj (n k x : Nat) (hn2 : 2 ≤ n) (hx : x < n) :
    ∃ j, j < n ∧ posIdx n k j = x := by
  classical
  have hinj : Set.InjOn (posIdx n k) (Finset.range n) := by
    intro a ha b hb hab
    rw [Finset.coe_range, Set.mem_Iio] at ha hb
    exact posIdx_inj n k a b hn2 ha hb hab
  have hsub : (Finset.range n).image (posIdx n k) ⊆ Finset.range n := by
    intro y hy
    rw [Finset.mem_image] at hy
    obtain ⟨j, hj, hjy⟩ := hy
    rw [Finset.mem_range] at hj ⊢
    rw [← hjy]
    exact posIdx_lt n k j hn2
  have hcard : ((Finset.range n).image (posIdx n k)).card = n := by
    rw [Finset.card_image_of_injOn hinj, Finset.card_range]
  have himg : (Finset.range n).image (posIdx n k) = Finset.range n :=
    Finset.eq_of_subset_of_card_le hsub (by rw [hcard, Finset.card_range])
  have hx2 : x ∈ (Finset.range n).image (posIdx n k) := by
    rw [himg, Finset.mem_range]
    exact hx
  rw [Finset.mem_image] at hx2
  obtain ⟨j, hj, hjx⟩ := hx2
  rw [Finset.mem_range] at hj
  exact ⟨j, hj, hjx⟩

/-- In each pass, every index below `n` occurs in exactly one slot. -/
theorem passIdx_contains_unique (n k x : Nat) (hn2 : 2 ≤ n) (he : n % 2 = 0)
    (hx : x < n) :
    ∃ i, i < n / 2 ∧ (posIdx n k i = x ∨ posIdx n k (n - 1 - i) = x) ∧
      ∀ i', i' < n / 2 →
        (posIdx n k i' = x ∨ posIdx n k (n - 1 - i') = x) → i' = i := by
  obtain ⟨j, hj, hjx⟩ := posIdx_surj n k x hn2 hx
  refine ⟨if j < n / 2 then j else n - 1 - j, by split_ifs <;> omega, ?_, ?_⟩
  · split_ifs with hjh
    · left; exact hjx
    · right
      rw [show n - 1 - (n - 1 - j) = j by omega]
      exact hjx
  · intro i' hi' hcase
    have hj' : ∀ a, a < n → posIdx n k a = x → a = j := by
      intro a ha hax
      exact posIdx_inj n k a j hn2 ha hj (by rw [hax, hjx])
    rcases hcase with hc | hc
    · have : i' = j := hj' i' (by omega) hc
      split_ifs with hjh
      · omega
      · omega
    · have : n - 1 - i' = j := hj' (n - 1 - i') (by omega) hc
      split_ifs with hjh
      · omega
      · omega

/-- Per-pass count of slots whose pair contains a fixed index. -/
theorem countP_passIdx_contains (n k x : Nat) (hn2 : 2 ≤ n) (he : n % 2 = 0)
    (hx : x < n) :
    (passIdx n k).countP (fun pr => decide (pr.1 = x ∨ pr.2 = x)) = 1 := by
  obtain ⟨i0, hi0, hcase, huniq⟩ := passIdx_contains_unique n k x hn2 he hx
  rw [passIdx, List.countP_map]
  apply countP_eq_one_of_unique _ _ (List.nodup_range _) i0
    (List.mem_range.mpr hi0)
  · rw [Function.comp]
    simp only [decide_eq_true_eq]
    exact hcase
  · intro b hb hpb
    rw [List.mem_range] at hb
    rw [Function.comp] at hpb
    simp only [decide_eq_true_eq] at hpb
    exact huniq b hb hpb

/-- Schedule-wide count of slots whose pair contains a fixed index: one per
pass. -/
theorem countP_schedIdx_contains (n x : Nat) (hn2 : 2 ≤ n) (he : n % 2 = 0)
    (hx : x < n) :
    ∀ c k, (schedIdx n c k).countP
      (fun pr => decide (pr.1 = x ∨ pr.2 = x)) = c
  | 0, k => by rw [show schedIdx n 0 k = [] from rfl, List.countP_nil]
  | c + 1, k => by
    rw [schedIdx, List.countP_append, countP_passIdx_contains n k x hn2 he hx,
      countP_schedIdx_contains n x hn2 he hx c (k + 1)]
    omega

/-- `filterMap` of a guarded `some` is `filter` then `map`. -/
theorem filterMap_ite_eq_filter_map {α β : Type} (c : α → Prop)
    [DecidablePred c] (f : α → β) (l : List α) :
    l.filterMap (fun a => if c a then some (f a) else none) =
      (l.filter (fun a => decide (c a))).map f := by
  induction l with
  | nil => rfl
  | cons x t IH =>
    by_cases hcx : c x
    · rw [show List.filter (fun a => decide (c a)) (x :: t)
          = x :: List.filter (fun a => decide (c a)) t from
        List.filter_cons_of_pos (by simp [hcx])]
      simp only [List.filterMap_cons, if_pos hcx, List.map_cons, IH]
    · rw [show List.filter (fun a => decide (c a)) (x :: t)
          = List.filter (fun a => decide (c a)) t from
        List.filter_cons_of_neg (by simp [hcx])]
      simp only [List.filterMap_cons, if_neg hcx, IH]

/-- Two distinct satisfying members force a count of at least two. -/
theorem two_le_countP_of_mem_ne {α : Type} (p : α → Bool) (L : List α)
    (a b : α) (ha : a ∈ L) (hb : b ∈ L) (hab : a ≠ b) (hpa : p a = true)
    (hpb : p b = true) : 2 ≤ L.countP p := by
  induction L with
  | nil => simp at ha
  | cons x t IH =>
    rcases List.mem_cons.mp ha with hax | hat
    · rcases List.mem_cons.mp hb with hbx | hbt
      · exact absurd (hax.trans hbx.symm) hab
      · rw [hax] at hpa
        rw [List.countP_cons_of_pos _ _ hpa]
        have : 1 ≤ t.countP p := by
          rw [Nat.succ_le_iff, List.countP_pos_iff]
          exact ⟨b, hbt, hpb⟩
        omega
    · rcases List.mem_cons.mp hb with hbx | hbt
      · rw [hbx] at hpb
        rw [List.countP_cons_of_pos _ _ hpb]
        have : 1 ≤ t.countP p := by
          rw [Nat.succ_le_iff, List.countP_pos_iff]
          exact ⟨a, hat, hpa⟩
        omega
      · have := IH hat hbt
        rw [List.countP_cons]
        omega

/-! ### Transfer from index schedule to player pairs -/

/-- The player pair read off an index pair. -/
def toStrPair (q : List String) (pr : Nat × Nat) : String × String :=
  (q.getD pr.1 emptyId, q.getD pr.2 emptyId)

/-- The BYE filter on an index pair. -/
def keepPred (q : List String) (pr : Nat × Nat) : Prop :=
  q.getD pr.1 emptyId ≠ "BYE" ∧ q.getD pr.2 emptyId ≠ "BYE"

instance (q : List String) (pr : Nat × Nat) : Decidable (keepPred q pr) := by
  rw [keepPred]
  infer_instance

theorem idxFilter_eq_ite (tid : String) (q : List String) :
    idxFilter tid q = fun pr =>
      if keepPred q pr then some (toStrPair q pr) else none := by
  funext pr
  simp [idxFilter, keepPred, toStrPair, pairAlreadyPlayed]

theorem rrAllPairs_filter_map (tid : String) (available : List String)
    (h2 : 2 ≤ (rrPadded available).length) :
    rrAllPairs tid available =
      ((schedIdx (rrPadded available).length
          ((rrPadded available).length - 1) 0).filter
        (fun pr => decide (keepPred (rrPadded available) pr))).map
        (toStrPair (rrPadded available)) := by
  rw [rrAllPairs_eq_schedIdx tid available h2, idxFilter_eq_ite,
    filterMap_ite_eq_filter_map]

theorem rrPadded_length (available : List String) :
    (rrPadded available).length =
      if available.length % 2 = 1 then available.length + 1
      else available.length := by
  rw [rrPadded]
  split_ifs <;> simp

theorem rrPadded_even_len (available : List String) :
    (rrPadded available).length % 2 = 0 := by
  rw [rrPadded_length]
  split_ifs with h <;> omega

theorem rrPadded_nodup (available : List String) (hnd : available.Nodup)
    (hbye : "BYE" ∉ available) : (rrPadded available).Nodup := by
  rw [rrPadded]
  split_ifs with h
  · rw [List.nodup_append]
    refine ⟨hnd, by simp, ?_⟩
    intro a ha hb
    rw [List.mem_singleton] at hb
    rw [hb] at ha
    exact hbye ha
  · exact hnd

theorem rrPadded_getD_lt (available : List String) (j : Nat)
    (hj : j < available.length) :
    (rrPadded available).getD j emptyId = available.getD j emptyId := by
  rw [rrPadded]
  split_ifs with h
  · rw [List.getD_eq_getElem _ _ (by simp; omega),
      List.getD_eq_getElem _ _ hj]
    exact List.getElem_append_left hj
  · rfl

theorem rrPadded_getD_mem (available : List String) (j : Nat)
    (hj : j < available.length) :
    (rrPadded available).getD j emptyId ∈ available := by
  rw [rrPadded_getD_lt available j hj, List.getD_eq_getElem _ _ hj]
  exact List.getElem_mem hj

theorem rrPadded_getD_bye (available : List String) (hbye : "BYE" ∉ available)
    (j : Nat) (hj : j < (rrPadded available).length) :
    ((rrPadded available).getD j emptyId = "BYE" ↔
      available.length % 2 = 1 ∧ j = available.length) := by
  constructor
  · intro h
    by_cases hjN : j < available.length
    · exfalso
      have := rrPadded_getD_mem available j hjN
      rw [h] at this
      exact hbye this
    · rw [rrPadded_length] at hj
      split_ifs at hj with hpar
      · exact ⟨hpar, by omega⟩
      · omega
  · rintro ⟨hpar, hjN⟩
    subst hjN
    rw [rrPadded, if_pos hpar,
      List.getD_eq_getElem _ _ (by simp)]
    exact List.getElem_concat_length _ _ _ rfl _

theorem rrPadded_getD_inj (available : List String) (hnd : available.Nodup)
    (hbye : "BYE" ∉ available) (j j' : Nat)
    (hj : j < (rrPadded available).length)
    (hj' : j' < (rrPadded available).length)
    (h : (rrPadded available).getD j emptyId
        = (rrPadded available).getD j' emptyId) : j = j' := by
  have hq := rrPadded_nodup available hnd hbye
  rw [List.getD_eq_getElem _ _ hj, List.getD_eq_getElem _ _ hj'] at h
  exact (hq.getElem_inj_iff).mp h

theorem rrPadded_index_of_mem (available : List String) (u : String)
    (hu : u ∈ available) :
    ∃ iu, iu < available.length ∧
      (rrPadded available).getD iu emptyId = u := by
  rw [List.mem_iff_getElem] at hu
  obtain ⟨iu, hiu, hgu⟩ := hu
  refine ⟨iu, hiu, ?_⟩
  rw [rrPadded_getD_lt available iu hiu, List.getD_eq_getElem _ _ hiu]
  exact hgu

/-- Total number of scheduled pairs: `N (N - 1) / 2`. -/
theorem rrAllPairs_length (tid : String) (available : List String)
    (hnd : available.Nodup) (hbye : "BYE" ∉ available)
    (hN2 : 2 ≤ available.length) :
    (rrAllPairs tid available).length
      = available.length * (available.length - 1) / 2 := by
  have hn2 : 2 ≤ (rrPadded available).length := by
    rw [rrPadded_length]
    split_ifs <;> omega
  have he := rrPadded_even_len available
  set N := available.length with hN
  set n := (rrPadded available).length with hn
  rw [rrAllPairs_filter_map tid available hn2, List.length_map,
    ← List.countP_eq_length_filter]
  by_cases hpar : N % 2 = 1
  · -- odd: one slot per pass is a BYE pairing
    have hnN : n = N + 1 := by
      rw [hn, rrPadded_length, if_pos hpar]
    have hc1 : (schedIdx n (n - 1) 0).countP
        (fun pr => decide (keepPred (rrPadded available) pr)) =
      (schedIdx n (n - 1) 0).length - (schedIdx n (n - 1) 0).countP
        (fun pr => decide (pr.1 = N ∨ pr.2 = N)) := by
      have hcompl : ∀ pr ∈ schedIdx n (n - 1) 0,
          (decide (keepPred (rrPadded available) pr) ↔
            ¬ decide (pr.1 = N ∨ pr.2 = N)) := by
        intro pr hpr
        obtain ⟨k, i, _, _, hi, hpr_eq⟩ := mem_schedIdx n (n - 1) 0 pr hpr
        have h1 : pr.1 < n := by
          rw [hpr_eq]; exact posIdx_lt n k i hn2
        have h2 : pr.2 < n := by
          rw [hpr_eq]; exact posIdx_lt n k (n - 1 - i) hn2
        have hb1 := rrPadded_getD_bye available hbye pr.1 h1
        have hb2 := rrPadded_getD_bye available hbye pr.2 h2
        simp only [decide_eq_true_eq, keepPred]
        constructor
        · rintro ⟨hk1, hk2⟩ hor
          rcases hor with h | h
          · exact hk1 (hb1.mpr ⟨hpar, h⟩)
          · exact hk2 (hb2.mpr ⟨hpar, h⟩)
        · intro hnor
          constructor
          · intro hB
            exact hnor (Or.inl (hb1.mp hB).2)
          · intro hB
            exact hnor (Or.inr (hb2.mp hB).2)
      have := List.length_eq_countP_add_countP
        (p := fun pr => decide (pr.1 = N ∨ pr.2 = N))
        (l := schedIdx n (n - 1) 0)
      have hcong : (schedIdx n (n - 1) 0).countP
          (fun pr => decide (keepPred (rrPadded available) pr)) =
        (schedIdx n (n - 1) 0).countP
          (fun pr => !(decide (pr.1 = N ∨ pr.2 = N))) := by
        apply List.countP_congr
        intro pr hpr
        have hx := hcompl pr hpr
        constructor
        · intro h
          have h2 := hx.mp h
          simp only [Bool.not_eq_true', decide_eq_false_iff_not]
          intro hc
          exact h2 (by simpa using hc)
        · intro h
          apply hx.mpr
          simp only [Bool.not_eq_true', decide_eq_false_iff_not] at h
          simpa using h
      rw [hcong]
      have hsplit := List.length_eq_countP_add_countP
        (p := fun pr => decide (pr.1 = N ∨ pr.2 = N)) (l := schedIdx n (n - 1) 0)
      have hcompl2 : (schedIdx n (n - 1) 0).countP
          (fun pr => !(decide (pr.1 = N ∨ pr.2 = N))) =
        (schedIdx n (n - 1) 0).countP
          (fun pr => ¬(decide (pr.1 = N ∨ pr.2 = N))) := by
        apply List.countP_congr
        intro pr hpr
        simp
      rw [hcompl2]
      omega
    rw [hc1, schedIdx_length,
      countP_schedIdx_contains n N hn2 he (by omega) (n - 1) 0]
    obtain ⟨s, hs⟩ : ∃ s, N = 2 * s + 1 := ⟨N / 2, by omega⟩
    have hnval : n = 2 * s + 2 := by omega
    rw [hnval, hs]
    have e1 : (2 * s + 2) - 1 = 2 * s + 1 := by omega
    have e2 : (2 * s + 2) / 2 = s + 1 := by omega
    rw [e1, e2]
    have e3 : (2 * s + 1) * (2 * s + 1 - 1) = 2 * ((2 * s + 1) * s) := by
      rw [show 2 * s + 1 - 1 = 2 * s by omega]
      ring
    rw [e3, Nat.mul_div_cancel_left _ (by norm_num : 0 < 2)]
    ring_nf
    omega
  · -- even: nothing is filtered
    have hnN : n = N := by
      rw [hn, rrPadded_length, if_neg hpar]
    have hkeep : ∀ pr ∈ schedIdx n (n - 1) 0,
        decide (keepPred (rrPadded available) pr) = true := by
      intro pr hpr
      obtain ⟨k, i, _, _, hi, hpr_eq⟩ := mem_schedIdx n (n - 1) 0 pr hpr
      have h1 : pr.1 < n := by
        rw [hpr_eq]; exact posIdx_lt n k i hn2
      have h2 : pr.2 < n := by
        rw [hpr_eq]; exact posIdx_lt n k (n - 1 - i) hn2
      simp only [decide_eq_true_eq, keepPred]
      constructor
      · intro hB
        have := rrPadded_getD_mem available pr.1 (by omega)
        rw [hB] at this
        exact hbye this
      · intro hB
        have := rrPadded_getD_mem available pr.2 (by omega)
        rw [hB] at this
        exact hbye this
    have : (schedIdx n (n - 1) 0).countP
        (fun pr => decide (keepPred (rrPadded available) pr)) =
        (schedIdx n (n - 1) 0).length := by
      rw [List.countP_eq_length]
      exact hkeep
    rw [this, schedIdx_length]
    obtain ⟨t, ht⟩ : ∃ t, N = 2 * t := ⟨N / 2, by omega⟩
    rw [hnN, ht]
    have e1 : 2 * t * (2 * t - 1) = 2 * (t * (2 * t - 1)) := by ring
    rw [e1, Nat.mul_div_cancel_left _ (by norm_num : 0 < 2)]
    rw [Nat.mul_div_cancel_left _ (by norm_num : 0 < 2)]
    ring

/-- Every unordered pair of distinct players appears exactly once in the
schedule. -/
theorem rrAllPairs_count (tid : String) (available : List String)
    (hnd : available.Nodup) (hbye : "BYE" ∉ available)
    (hN2 : 2 ≤ available.length) (u v : String) (hu : u ∈ available)
    (hv : v ∈ available) (huv : u ≠ v) :
    (rrAllPairs tid available).countP
      (fun pr => decide ((pr.1 = u ∧ pr.2 = v) ∨ (pr.1 = v ∧ pr.2 = u)))
      = 1 := by
  have hn2 : 2 ≤ (rrPadded available).length := by
    rw [rrPadded_length]
    split_ifs <;> omega
  have he := rrPadded_even_len available
  set N := available.length with hN
  set n := (rrPadded available).length with hn
  have hNn : N ≤ n := by
    rw [hn, rrPadded_length]
    split_ifs <;> omega
  obtain ⟨iu, hiuN, hiu⟩ := rrPadded_index_of_mem available u hu
  obtain ⟨iv, hivN, hiv⟩ := rrPadded_index_of_mem available v hv
  have hiun : iu < n := by omega
  have hivn : iv < n := by omega
  have hne : iu ≠ iv := by
    intro h
    apply huv
    rw [← hiu, ← hiv, h]
  rw [rrAllPairs_filter_map tid available hn2, List.countP_map,
    List.countP_filter]
  have hcong : (schedIdx n (n - 1) 0).countP
      (fun pr =>
        decide ((toStrPair (rrPadded available) pr).1 = u ∧
            (toStrPair (rrPadded available) pr).2 = v ∨
          (toStrPair (rrPadded available) pr).1 = v ∧
            (toStrPair (rrPadded available) pr).2 = u) &&
        decide (keepPred (rrPadded available) pr)) =
      (schedIdx n (n - 1) 0).countP
        (fun pr => decide (({pr.1, pr.2} : Finset ℕ) = {iu, iv})) := by
    apply List.countP_congr
    intro pr hpr
    obtain ⟨k, i, _, _, hi, hpr_eq⟩ := mem_schedIdx n (n - 1) 0 pr hpr
    have h1 : pr.1 < n := by
      rw [hpr_eq]; exact posIdx_lt n k i hn2
    have h2 : pr.2 < n := by
      rw [hpr_eq]; exact posIdx_lt n k (n - 1 - i) hn2
    simp only [Bool.and_eq_true, decide_eq_true_eq, toStrPair, keepPred]
    constructor
    · rintro ⟨hstr, hk1, hk2⟩
      rcases hstr with ⟨ha, hb⟩ | ⟨ha, hb⟩
      · have e1 : pr.1 = iu :=
          rrPadded_getD_inj available hnd hbye pr.1 iu h1 hiun
            (by rw [ha, hiu])
        have e2 : pr.2 = iv :=
          rrPadded_getD_inj available hnd hbye pr.2 iv h2 hivn
            (by rw [hb, hiv])
        rw [e1, e2]
      · have e1 : pr.1 = iv :=
          rrPadded_getD_inj available hnd hbye pr.1 iv h1 hivn
            (by rw [ha, hiv])
        have e2 : pr.2 = iu :=
          rrPadded_getD_inj available hnd hbye pr.2 iu h2 hiun
            (by rw [hb, hiu])
        rw [e1, e2]
        exact Finset.pair_comm iv iu
    · intro hset
      have hbyeu : u ≠ "BYE" := by
        intro h; rw [h] at hu; exact hbye hu
      have hbyev : v ≠ "BYE" := by
        intro h; rw [h] at hv; exact hbye hv
      rcases finset_pair_eq_cases hset with ⟨e1, e2⟩ | ⟨e1, e2⟩
      · rw [e1, e2, hiu, hiv]
        exact ⟨Or.inl ⟨rfl, rfl⟩, hbyeu, hbyev⟩
      · rw [e1, e2, hiu, hiv]
        exact ⟨Or.inr ⟨rfl, rfl⟩, hbyev, hbyeu⟩
  simp only [Function.comp]
  rw [hcong]
  apply schedIdx_count_pair_one n hn2 he
  rw [Finset.mem_powersetCard]
  constructor
  · intro x hx
    rw [Finset.mem_insert, Finset.mem_singleton] at hx
    rw [Finset.mem_range]
    rcases hx with h | h <;> omega
  · exact Finset.card_pair hne

/-- Pass `k` of the rotation, as the source computes it: `rrPassPairs`
applied to the `k`-fold rotated padded list. -/
def rrPassAt (tid : String) (available : List String) (k : Nat) :
    List (String × String) :=
  rrPassPairs tid (rrRotate^[k] (rrPadded available))

theorem iterate_rrRotate (q : List String) (hq2 : 2 ≤ q.length) :
    ∀ k, rrRotate^[k] q = playersAt q k
  | 0 => by rw [Function.iterate_zero_apply, playersAt_zero]
  | k + 1 => by
    rw [Function.iterate_succ_apply', iterate_rrRotate q hq2 k,
      rrRotate_playersAt q k hq2]

theorem rrPassAt_eq (tid : String) (available : List String) (k : Nat)
    (hn2 : 2 ≤ (rrPadded available).length) :
    rrPassAt tid available k =
      (passIdx (rrPadded available).length k).filterMap
        (idxFilter tid (rrPadded available)) := by
  rw [rrPassAt, iterate_rrRotate _ hn2 k,
    rrPassPairs_playersAt tid _ k hn2]

/-- The source's pass loop is the concatenation of the passes. -/
theorem rrAllPairs_passes (tid : String) (available : List String)
    (hn2 : 2 ≤ (rrPadded available).length) :
    rrAllPairs tid available =
      (List.range ((rrPadded available).length - 1)).flatMap
        (rrPassAt tid available) := by
  set q := rrPadded available with hq
  set n := q.length with hn
  have hgen : ∀ c k, (schedIdx n c k).filterMap (idxFilter tid q) =
      (List.range c).flatMap
        (fun j => (passIdx n (k + j)).filterMap (idxFilter tid q)) := by
    intro c
    induction c with
    | zero => intro k; rfl
    | succ c IH =>
      intro k
      rw [schedIdx, List.filterMap_append, List.range_succ_eq_map,
        List.flatMap_cons, List.flatMap_map]
      rw [Nat.add_zero, IH (k + 1)]
      congr 1
      apply List.flatMap_congr
      intro j hj
      simp only [Function.comp, show k + Nat.succ j = k + 1 + j by omega]
  rw [rrAllPairs_eq_schedIdx tid available hn2, hgen (n - 1) 0]
  apply List.flatMap_congr
  intro j hj
  rw [Nat.zero_add, rrPassAt_eq tid available j hn2]

/-- In the odd case each player sits out exactly one pass. -/
theorem rr_sitsout (tid : String) (available : List String)
    (hnd : available.Nodup) (hbye : "BYE" ∉ available)
    (hN2 : 2 ≤ available.length) (hpar : available.length % 2 = 1)
    (u : String) (hu : u ∈ available) :
    ((List.range ((rrPadded available).length - 1)).countP
      (fun k => decide (∀ pr ∈ rrPassAt tid available k,
          pr.1 ≠ u ∧ pr.2 ≠ u))) = 1 := by
  set N := available.length with hN
  set n := (rrPadded available).length with hn
  have hnN : n = N + 1 := by
    rw [hn, rrPadded_length, if_pos hpar]
  have hn2 : 2 ≤ n := by omega
  have he := rrPadded_even_len available
  obtain ⟨iu, hiuN, hiu⟩ := rrPadded_index_of_mem available u hu
  have hbyeN : (rrPadded available).getD (n - 1) emptyId = "BYE" :=
    (rrPadded_getD_bye available hbye (n - 1) (by omega)).mpr ⟨hpar, by omega⟩
  have hiu_ne : iu ≠ n - 1 := by omega
  have hs_mem : ({iu, n - 1} : Finset ℕ) ∈
      (Finset.range n).powersetCard 2 := by
    rw [Finset.mem_powersetCard]
    constructor
    · intro x hx
      rw [Finset.mem_insert, Finset.mem_singleton] at hx
      rw [Finset.mem_range]
      rcases hx with h | h <;> omega
    · exact Finset.card_pair hiu_ne
  obtain ⟨k0, i0, hk0, hi0, hs0⟩ :=
    circPair_surj n hn2 he ({iu, n - 1} : Finset ℕ) hs_mem
  have hukey : ∀ k, k < n - 1 →
      ((∀ pr ∈ rrPassAt tid available k, pr.1 ≠ u ∧ pr.2 ≠ u) ↔ k = k0) := by
    intro k hk
    have hpass := rrPassAt_eq tid available k (by omega)
    constructor
    · -- u absent from the kept pass: the slot holding u must be the BYE slot
      intro habs
      obtain ⟨i1, hi1, hcase, huniq⟩ :=
        passIdx_contains_unique n k iu hn2 he (by omega)
      -- the slot i1 holds iu; show its pair is {iu, n-1}
      set a1 := (posIdx n k i1, posIdx n k (n - 1 - i1)) with ha1
      have ha1_mem : a1 ∈ passIdx n k := by
        rw [passIdx, List.mem_map]
        exact ⟨i1, List.mem_range.mpr hi1, rfl⟩
      have hlt1 : a1.1 < n := posIdx_lt n k i1 hn2
      have hlt2 : a1.2 < n := posIdx_lt n k (n - 1 - i1) hn2
      have hnkeep : ¬ keepPred (rrPadded available) a1 := by
        intro hkeep
        have hsome : idxFilter tid (rrPadded available) a1 =
            some (toStrPair (rrPadded available) a1) := by
          rw [idxFilter_eq_ite]
          exact if_pos hkeep
        have hmem2 : toStrPair (rrPadded available) a1 ∈
            rrPassAt tid available k := by
          rw [hpass, List.mem_filterMap]
          exact ⟨a1, ha1_mem, hsome⟩
        have := habs _ hmem2
        rcases hcase with hc | hc
        · apply this.1
          simp only [toStrPair]
          rw [hc]
          exact hiu
        · apply this.2
          simp only [toStrPair]
          rw [hc]
          exact hiu
      -- not kept means one end reads BYE, i.e. is index n-1
      have ea1 : a1.1 = posIdx n k i1 := rfl
      have ea2 : a1.2 = posIdx n k (n - 1 - i1) := rfl
      have ha1_is : ({a1.1, a1.2} : Finset ℕ) = {iu, n - 1} := by
        rw [keepPred, not_and_or] at hnkeep
        rcases hcase with hc | hc
        · rcases hnkeep with hB | hB
          · exfalso
            rw [not_not] at hB
            have := (rrPadded_getD_bye available hbye a1.1 hlt1).mp hB
            omega
          · rw [not_not] at hB
            have h2 := (rrPadded_getD_bye available hbye a1.2 hlt2).mp hB
            rw [show a1.1 = iu by omega, show a1.2 = n - 1 by omega]
        · rcases hnkeep with hB | hB
          · rw [not_not] at hB
            have h2 := (rrPadded_getD_bye available hbye a1.1 hlt1).mp hB
            rw [show a1.1 = n - 1 by omega, show a1.2 = iu by omega,
              Finset.pair_comm]
          · exfalso
            rw [not_not] at hB
            have := (rrPadded_getD_bye available hbye a1.2 hlt2).mp hB
            omega
      have : circPair n k i1 = circPair n k0 i0 := by
        rw [circPair, hs0, ← ha1_is]
      exact (pairF_posIdx_inj n hn2 he k i1 k0 i0 hk hi1 hk0 hi0 this).1
    · -- in pass k0 the slot holding u also holds the BYE, so u is absent
      intro hkk
      subst hkk
      intro pr hpr
      rw [hpass, List.mem_filterMap] at hpr
      obtain ⟨a, ha_mem, ha_eq⟩ := hpr
      rw [idxFilter_eq_ite] at ha_eq
      dsimp only at ha_eq
      by_cases hkeep : keepPred (rrPadded available) a
      · rw [if_pos hkeep] at ha_eq
        rw [passIdx, List.mem_map] at ha_mem
        obtain ⟨i, hi, ha_i⟩ := ha_mem
        rw [List.mem_range] at hi
        have hlt1 : a.1 < n := by
          rw [← ha_i]; exact posIdx_lt n k i hn2
        have hlt2 : a.2 < n := by
          rw [← ha_i]; exact posIdx_lt n k (n - 1 - i) hn2
        -- the slot i0 already pairs iu with the BYE slot
        have hcirc : circPair n k i0 = {iu, n - 1} := hs0
        have hiu_slot : posIdx n k i0 = iu ∨ posIdx n k (n - 1 - i0) = iu := by
          have : iu ∈ circPair n k i0 := by
            rw [hcirc]
            simp
          rw [circPair, Finset.mem_insert, Finset.mem_singleton] at this
          omega
        obtain ⟨i1, hi1, hcase1, huniq1⟩ :=
          passIdx_contains_unique n k iu hn2 he (by omega)
        have hi0_i1 : i0 = i1 := huniq1 i0 hi0 hiu_slot
        have hpr2 : toStrPair (rrPadded available) a = pr :=
          Option.some_inj.mp ha_eq
        constructor
        · intro hu1
          rw [← hpr2] at hu1
          have ha1iu : a.1 = iu := by
            apply rrPadded_getD_inj available hnd hbye a.1 iu hlt1 (by omega)
            rw [hiu]
            exact hu1
          -- slot i contains iu, so i = i1 = i0, and then a contains n-1
          have : i = i1 := by
            apply huniq1 i hi
            left
            rw [← ha1iu, ← ha_i]
          have hset : ({a.1, a.2} : Finset ℕ) = {iu, n - 1} := by
            rw [← hcirc, circPair, hi0_i1, ← this, ← ha_i]
          rcases finset_pair_eq_cases hset with ⟨e1, e2⟩ | ⟨e1, e2⟩
          · have := (rrPadded_getD_bye available hbye a.2 hlt2).mpr
              ⟨hpar, by omega⟩
            rw [keepPred] at hkeep
            exact hkeep.2 this
          · omega
        · intro hu2
          rw [← hpr2] at hu2
          have ha2iu : a.2 = iu := by
            apply rrPadded_getD_inj available hnd hbye a.2 iu hlt2 (by omega)
            rw [hiu]
            exact hu2
          have : i = i1 := by
            apply huniq1 i hi
            right
            rw [← ha2iu, ← ha_i]
          have hset : ({a.1, a.2} : Finset ℕ) = {iu, n - 1} := by
            rw [← hcirc, circPair, hi0_i1, ← this, ← ha_i]
          rcases finset_pair_eq_cases hset with ⟨e1, e2⟩ | ⟨e1, e2⟩
          · omega
          · have := (rrPadded_getD_bye available hbye a.1 hlt1).mpr
              ⟨hpar, by omega⟩
            rw [keepPred] at hkeep
            exact hkeep.1 this
      · rw [if_neg hkeep] at ha_eq
        exact absurd ha_eq (by simp)
  apply countP_eq_one_of_unique _ _ (List.nodup_range _) k0
    (List.mem_range.mpr hk0)
  · simp only [decide_eq_true_eq]
    exact (hukey k0 hk0).mpr rfl
  · intro b hb hpb
    rw [List.mem_range] at hb
    simp only [decide_eq_true_eq] at hpb
    exact (hukey b hb).mp hpb

/-- `countP` through `mapIdx` when the predicate ignores the index. -/
theorem countP_mapIdx {α β : Type} (l : List α) (f : Nat → α → β)
    (p : β → Bool) (p' : α → Bool) (h : ∀ i a, p (f i a) = p' a) :
    (l.mapIdx f).countP p = l.countP p' := by
  induction l generalizing f with
  | nil => rfl
  | cons x t IH =>
    rw [List.mapIdx_cons, List.countP_cons, List.countP_cons, h 0 x,
      IH (fun i a => f (i + 1) a) (fun i a => h (i + 1) a)]

/-- **C1.** `RoundRobinStrategy.create_matches` with `players_per_match
= 2` on `N ≥ 2` distinct player ids (none equal to the `"BYE"` sentinel):
exactly `N (N − 1) / 2` two-player matches are produced, every unordered
pair of distinct input players appears in exactly one match, and when `N`
is odd a BYE sentinel is appended to the pool, the full schedule is the
concatenation of the rotation's passes, and each player sits out exactly
one pass. -/
theorem roundrobin_create_matches_c1 (tid rid : String)
    (available : List String) (fresh : Nat) (hnd : available.Nodup)
    (hbye : "BYE" ∉ available) (hN2 : 2 ≤ available.length) :
    (rrCreateMatches tid rid available fresh).1.length
        = available.length * (available.length - 1) / 2
    ∧ (∀ mt ∈ (rrCreateMatches tid rid available fresh).1,
        mt.player_ids.length = 2 ∧ mt.auto_bye = false)
    ∧ (∀ u ∈ available, ∀ v ∈ available, u ≠ v →
        ((rrCreateMatches tid rid available fresh).1.countP
          (fun mt => decide (mt.player_ids = [u, v] ∨ mt.player_ids = [v, u])))
          = 1)
    ∧ (rrAllPairs tid available =
        (List.range ((rrPadded available).length - 1)).flatMap
          (rrPassAt tid available))
    ∧ (available.length % 2 = 1 →
        rrPadded available = available ++ ["BYE"]
        ∧ ∀ u ∈ available,
            ((List.range ((rrPadded available).length - 1)).countP
              (fun k => decide (∀ pr ∈ rrPassAt tid available k,
                  pr.1 ≠ u ∧ pr.2 ≠ u))) = 1) := by
  have hav : available ≠ [] := by
    intro h
    rw [h] at hN2
    simp at hN2
  have hn2 : 2 ≤ (rrPadded available).length := by
    rw [rrPadded_length]
    split_ifs <;> omega
  have hout : rrCreateMatches tid rid available fresh =
      ((rrAllPairs tid available).mapIdx (fun i pr =>
        ({ id := generate_id (fresh + i), round_id := rid,
           tournament_id := tid, player_ids := [pr.1, pr.2],
           scheduled_at := now_iso, players_per_match := 2 } : Match)),
       if available.length % 2 = 1 then
         available.filter (fun p =>
           !((rrAllPairs tid available).any (fun pr => pr.1 = p || pr.2 = p)))
       else []) := by
    rw [rrCreateMatches, if_neg hav]
  refine ⟨?_, ?_, ?_, rrAllPairs_passes tid available hn2, ?_⟩
  · rw [hout]
    dsimp only
    rw [List.length_mapIdx]
    exact rrAllPairs_length tid available hnd hbye hN2
  · intro mt hmt
    rw [hout] at hmt
    dsimp only at hmt
    rw [List.mem_iff_getElem] at hmt
    obtain ⟨i, hi, hmt⟩ := hmt
    rw [List.getElem_mapIdx] at hmt
    rw [← hmt]
    exact ⟨rfl, rfl⟩
  · intro u hu v hv huv
    rw [hout]
    dsimp only
    rw [countP_mapIdx _ _ _
      (fun pr => decide ((pr.1 = u ∧ pr.2 = v) ∨ (pr.1 = v ∧ pr.2 = u)))
      (by
        intro i a
        simp only [decide_eq_decide, List.cons.injEq, and_true])]
    exact rrAllPairs_count tid available hnd hbye hN2 u v hu hv huv
  · intro hpar
    refine ⟨by rw [rrPadded, if_pos hpar], ?_⟩
    intro u hu
    exact rr_sitsout tid available hnd hbye hN2 hpar u hu

/-- Witness for C1 at the concrete pool `["a", "b", "c"]` (the spec's
three-player scenario). -/
theorem roundrobin_create_matches_c1_witness :
    (rrCreateMatches "t" "r" ["a", "b", "c"] 0).1.length
        = (["a", "b", "c"] : List String).length
            * ((["a", "b", "c"] : List String).length - 1) / 2
    ∧ (∀ mt ∈ (rrCreateMatches "t" "r" ["a", "b", "c"] 0).1,
        mt.player_ids.length = 2 ∧ mt.auto_bye = false)
    ∧ (∀ u ∈ (["a", "b", "c"] : List String),
        ∀ v ∈ (["a", "b", "c"] : List String), u ≠ v →
        ((rrCreateMatches "t" "r" ["a", "b", "c"] 0).1.countP
          (fun mt => decide (mt.player_ids = [u, v] ∨ mt.player_ids = [v, u])))
          = 1)
    ∧ (rrAllPairs "t" ["a", "b", "c"] =
        (List.range ((rrPadded ["a", "b", "c"]).length - 1)).flatMap
          (rrPassAt "t" ["a", "b", "c"]))
    ∧ ((["a", "b", "c"] : List String).length % 2 = 1 →
        rrPadded ["a", "b", "c"] = ["a", "b", "c"] ++ ["BYE"]
        ∧ ∀ u ∈ (["a", "b", "c"] : List String),
            ((List.range ((rrPadded ["a", "b", "c"]).length - 1)).countP
              (fun k => decide (∀ pr ∈ rrPassAt "t" ["a", "b", "c"] k,
                  pr.1 ≠ u ∧ pr.2 ≠ u))) = 1) :=
  roundrobin_create_matches_c1 "t" "r" ["a", "b", "c"] 0
    (by decide) (by decide) (by decide)

/-! ## Repository state (tournament_repository.py) and
TournamentService (tournament_service.py)

The SQLite tables are embedded as lists; player names and timestamps are
never read by the service's control flow and are omitted.  Python floats
are exact rationals. -/

/-- A standings row (`stats` table, tournament_repository.py lines
92-106). -/
structure Stats where
  wins : ℚ := 0
  draws : ℚ := 0
  losses : ℚ := 0
  matches_played : ℚ := 0
  points : ℚ := 0
deriving DecidableEq, Repr

/-- A round row (`rounds` table, lines 61-72). -/
structure Round where
  id : String
  tournament_id : String
  round_type : String
  ordinal : Nat
deriving DecidableEq, Repr

/-- The repository state: `players`, `tournament_players`, `rounds`,
`matches`, `stats` and `waiting_list` tables. -/
structure RepoState where
  players_table : List String
  tournament_players : List ((String × String) × Bool)
  rounds : List Round
  match_table : List Match
  stats : List ((String × String) × Stats)
  waiting_list : List (String × String)
deriving DecidableEq, Repr

/-- `get_match` (tournament_repository.py lines 179-188); the source
raises on a missing id, modelled as `Option`. -/
def getMatch (st : RepoState) (match_id : String) : Option Match :=
  st.match_table.find? (fun m => m.id == match_id)

/-- The row patch of `update_match_result` (lines 199-215): `result`
becomes `"draw"` or `"complete"`, winners and rankings are stored. -/
def applyResult (result : MatchResult) (m : Match) : Match :=
  { m with
    result := some (if result.is_draw then "draw" else "complete"),
    winner_ids := some result.winner_ids,
    rankings := some result.rankings }

/-- `update_match_result` (lines 199-215): patch the row with the given
id. -/
def updateMatchResult (st : RepoState) (match_id : String)
    (result : MatchResult) : RepoState :=
  { st with match_table := st.match_table.map (fun m =>
      if m.id = match_id then applyResult result m else m) }

/-- `get_round_type`.  Modelled from the spec: the repository interface
declares `get_round_type(round_id)` ("what round type does this round id
belong to", spec section 6; tournament_core.py lines 192-195) but
`SQLiteTournamentRepository` leaves it unimplemented; it is modelled as
the round row's type, as the legacy query does (main.py lines 536-539). -/
def getRoundType (st : RepoState) (round_id : String) : Option String :=
  (st.rounds.find? (fun r => r.id == round_id)).map (fun r => r.round_type)

/-- `eliminate_player`.  Modelled from the spec: declared abstract
("set roster eligibility", spec section 6; tournament_core.py lines
182-185); sets `able_to_play = false` on the roster row as main.py lines
544-548 do. -/
def eliminatePlayer (st : RepoState) (tournament_id player_id : String) :
    RepoState :=
  { st with tournament_players := st.tournament_players.map (fun row =>
      if row.1 = (tournament_id, player_id) then (row.1, false) else row) }

/-- `activate_player`.  Modelled from the spec, like `eliminatePlayer`
(main.py lines 549-552): sets `able_to_play = true`. -/
def activatePlayer (st : RepoState) (tournament_id player_id : String) :
    RepoState :=
  { st with tournament_players := st.tournament_players.map (fun row =>
      if row.1 = (tournament_id, player_id) then (row.1, true) else row) }

/-- The roster eligibility flag visible for a (tournament, player) pair. -/
def eligOf (st : RepoState) (tournament_id player_id : String) : Option Bool :=
  st.tournament_players.lookup (tournament_id, player_id)

/-- The standing of a player as `get_stats` (lines 283-298) exposes it:
the `stats` row joined against the `players` table, so a row is visible
only when the player exists there. -/
def observedStanding (st : RepoState) (tournament_id player_id : String) :
    Option Stats :=
  if player_id ∈ st.players_table then st.stats.lookup (tournament_id, player_id)
  else none

/-- `_get_player_stats` (tournament_service.py lines 216-222): the visible
row, or an all-zero default. -/
def getPlayerStatsS (st : RepoState) (tournament_id player_id : String) :
    Stats :=
  (observedStanding st tournament_id player_id).getD {}

/-- `update_player_stats` (tournament_repository.py lines 300-321):
`INSERT OR REPLACE` keyed on (player, tournament). -/
def updatePlayerStats (st : RepoState) (tournament_id player_id : String)
    (s : Stats) : RepoState :=
  { st with stats :=
      if st.stats.any (fun row => row.1 == (tournament_id, player_id)) then
        st.stats.map (fun row =>
          if row.1 = (tournament_id, player_id) then (row.1, s) else row)
      else st.stats ++ [((tournament_id, player_id), s)] }

/-- The calculator type of `IPointsCalculator.calculate_points`. -/
def CalcFn : Type := String → Match → MatchResult → ℚ

/-- The built-in calculator registry as populated by the refactored GUI
(tournament_app.py lines 84-89). -/
def calcRegistry : String → Option CalcFn
  | "standard" => some standardCalculatePoints
  | "three_point" => some threePointCalculatePoints
  | "ranking" => some rankingCalculatePoints
  | "percentage" => some percentageCalculatePoints
  | _ => none

/-- `TournamentService.default_calculator` (tournament_service.py line
36). -/
def defaultCalculator : String := "standard"

/-- The loop body of `_update_player_statistics` (tournament_service.py
lines 193-213): read the current visible stats of one participant, add
the increments of this result, and write the row back. -/
def upsStep (m : Match) (result : MatchResult) (calculator : CalcFn)
    (s : RepoState) (player_id : String) : RepoState :=
  let points := calculator player_id m result
  let current := getPlayerStatsS s m.tournament_id player_id
  let next :=
    if result.is_draw then
      { current with matches_played := current.matches_played + 1,
                     draws := current.draws + 1,
                     points := current.points + points }
    else if player_id ∈ result.winner_ids then
      { current with matches_played := current.matches_played + 1,
                     wins := current.wins + 1,
                     points := current.points + points }
    else
      { current with matches_played := current.matches_played + 1,
                     losses := current.losses + 1,
                     points := current.points + points }
  updatePlayerStats s m.tournament_id player_id next

/-- `_update_player_statistics` (tournament_service.py lines 187-214):
the loop body applied to every participant in turn. -/
def updatePlayerStatistics (st : RepoState) (m : Match)
    (result : MatchResult) (calculator : CalcFn) : RepoState :=
  m.player_ids.foldl (upsStep m result calculator) st

/-- `_handle_knockout_elimination` (tournament_service.py lines 224-234):
eliminate every participant not among the winners, then (re)activate every
winner. -/
def handleKnockoutElimination (st : RepoState) (m : Match)
    (result : MatchResult) : RepoState :=
  let st1 := m.player_ids.foldl (fun s player_id =>
    if player_id ∈ result.winner_ids then s
    else eliminatePlayer s m.tournament_id player_id) st
  result.winner_ids.foldl (fun s w => activatePlayer s m.tournament_id w) st1

/-- Calculator resolution in `record_match_result` (tournament_service.py
lines 131-137): the named calculator, the tournament default name when no
name is passed, and the standard calculator as the final fallback. -/
def calcOf (calculator_name : Option String) : CalcFn :=
  match calcRegistry (calculator_name.getD defaultCalculator) with
  | some c => c
  | none => standardCalculatePoints

/-- `record_match_result` (tournament_service.py lines 115-151). -/
def record_match_result (st : RepoState) (match_id : String)
    (result : MatchResult) (calculator_name : Option String) :
    Except String RepoState :=
  match getMatch st match_id with
  | none => .error ("Match not found: " ++ match_id)
  | some m =>
    let round_type := getRoundType st m.round_id
    let is_knockout := round_type == some "knockout"
    let st1 := updateMatchResult st match_id result
    let st2 := updatePlayerStatistics st1 m result (calcOf calculator_name)
    if is_knockout && !result.is_draw then
      .ok (handleKnockoutElimination st2 m result)
    else
      .ok st2

/-- `RoundRobinStrategy._group_already_played` (tournament_strategies.py
lines 132-134): a stub that always returns `False`. -/
def groupAlreadyPlayed (tournament_id : String) (players : List String) :
    Bool := false

/-- `itertools.combinations`: all sorted position-subsets of the given
size, in lexicographic order. -/
def combos {α : Type} : Nat → List α → List (List α)
  | 0, _ => [[]]
  | _ + 1, [] => []
  | n + 1, x :: xs => (combos n xs).map (fun c => x :: c) ++ combos (n + 1) xs

/-- `RoundRobinStrategy._create_nplayer_roundrobin` (lines 98-124). -/
def nplayerRoundRobin (tournament_id round_id : String)
    (players : List String) (n : Nat) (fresh : Nat) :
    List Match × List String :=
  (((combos n players).filter
      (fun c => !groupAlreadyPlayed tournament_id c)).mapIdx (fun i c =>
    ({ id := generate_id (fresh + i), round_id := round_id,
       tournament_id := tournament_id, player_ids := c,
       scheduled_at := now_iso, players_per_match := n } : Match)), [])

/-- `RoundRobinStrategy.create_matches` (lines 28-96), both branches. -/
def roundRobinCreateMatches (tournament_id round_id : String)
    (available_players : List String) (config : RoundConfig) (fresh : Nat) :
    List Match × List String :=
  if available_players = [] then ([], [])
  else if config.players_per_match ≠ 2 then
    nplayerRoundRobin tournament_id round_id available_players
      config.players_per_match fresh
  else rrCreateMatches tournament_id round_id available_players fresh

/-- The score map used by `SwissStrategy.create_matches` (lines 250-256):
current points, defaulting to 0. -/
def swissScore (st : RepoState) (tournament_id p : String) : ℚ :=
  match observedStanding st tournament_id p with
  | some s => s.points
  | none => 0

/-- The greedy pairing loop of `SwissStrategy.create_matches` (lines
263-300): walk the sorted list; pair each unpaired player with the first
later unpaired candidate that has not played them (a stubbed check). -/
def swissLoop (tournament_id : String) :
    List String → List String → List (String × String) × List String
  | [], _ => ([], [])
  | p :: rest, paired =>
    if paired.contains p then swissLoop tournament_id rest paired
    else
      match rest.find? (fun c =>
          !paired.contains c && !pairAlreadyPlayed tournament_id p c) with
      | some c =>
        let pr := swissLoop tournament_id rest (c :: p :: paired)
        ((p, c) :: pr.1, pr.2)
      | none =>
        let pr := swissLoop tournament_id rest paired
        (pr.1, p :: pr.2)

/-- `SwissStrategy.create_matches` (lines 236-306): sort by points
descending (Python's stable sort) and pair greedily. -/
def swissCreateMatches (st : RepoState) (tournament_id round_id : String)
    (available_players : List String) (fresh : Nat) :
    List Match × List String :=
  if available_players.length < 2 then ([], available_players)
  else
    let sorted_players := available_players.mergeSort (fun a b =>
      decide (swissScore st tournament_id b ≤ swissScore st tournament_id a))
    let pr := swissLoop tournament_id sorted_players []
    (pr.1.mapIdx (fun i q =>
      ({ id := generate_id (fresh + i), round_id := round_id,
         tournament_id := tournament_id, player_ids := [q.1, q.2],
         scheduled_at := now_iso, players_per_match := 2 } : Match)), pr.2)

/-- `FreeForAllStrategy.create_matches` (lines 328-354). -/
def freeForAllCreateMatches (tournament_id round_id : String)
    (available_players : List String) (fresh : Nat) :
    List Match × List String :=
  if available_players = [] then ([], [])
  else
    ([{ id := generate_id fresh, round_id := round_id,
        tournament_id := tournament_id, player_ids := available_players,
        scheduled_at := now_iso,
        players_per_match := available_players.length }], [])

/-- The strategy names registered by the refactored GUI
(tournament_app.py lines 77-82). -/
def strategyKnown (name : String) : Bool :=
  name == "roundrobin" || name == "knockout" || name == "swiss" ||
    name == "freeforall"

/-- The four `supports_players_per_match` methods
(tournament_strategies.py lines 25-26, 149-150, 233-234, 325-326). -/
def supportsPlayersPerMatch : String → Nat → Bool
  | "roundrobin", n => n == 2
  | "knockout", _ => true
  | "swiss", n => n == 2
  | _, _ => true

/-- Dispatch of `create_matches` over the registered strategies.  The
fallback branch is unreachable: `create_round` rejects unknown names. -/
def strategyCreateMatches (st : RepoState) (name : String)
    (tournament_id round_id : String) (available_players : List String)
    (config : RoundConfig) (fresh : Nat) : List Match × List String :=
  match name with
  | "roundrobin" =>
    roundRobinCreateMatches tournament_id round_id available_players config
      fresh
  | "knockout" =>
    knockoutCreateMatches tournament_id round_id available_players config
      fresh
  | "swiss" =>
    swissCreateMatches st tournament_id round_id available_players fresh
  | "freeforall" =>
    freeForAllCreateMatches tournament_id round_id available_players fresh
  | _ => ([], [])

/-- `_has_pending_matches` (tournament_service.py lines 177-180): the
source is a stub — "This should be implemented in repository" — and
always returns `False`. -/
def hasPendingMatches (st : RepoState) (tournament_id : String) : Bool :=
  false

/-- `_get_next_round_ordinal` (tournament_service.py lines 182-185): the
source is a stub — "This should query the repository for existing
rounds" — and always returns `1`. -/
def getNextRoundOrdinal (st : RepoState) (tournament_id : String) : Nat := 1

/-- `get_tournament_players` (tournament_repository.py lines 226-240)
restricted to the fields the service reads.  The source orders rows by
player name; names are external, so the stored roster order stands in for
it (no claim depends on the roster order). -/
def getTournamentPlayers (st : RepoState) (tournament_id : String) :
    List (String × Bool) :=
  (st.tournament_players.filter (fun row => row.1.1 == tournament_id)).map
    (fun row => (row.1.2, row.2))

/-- The value returned by `create_round`. -/
structure RoundResult where
  round_id : String
  ordinal : Nat
  created_matches : List Match
  waiting_players : List String
deriving DecidableEq, Repr

/-- `create_round` (tournament_service.py lines 58-113). -/
def create_round (st : RepoState) (config : RoundConfig) (fresh : Nat) :
    Except String (RoundResult × RepoState) :=
  if !strategyKnown config.round_type then
    .error ("Unknown strategy: " ++ config.round_type)
  else if !supportsPlayersPerMatch config.round_type
      config.players_per_match then
    .error ("Strategy '" ++ config.round_type ++ "' doesn't support " ++
      toString config.players_per_match ++ "-player matches")
  else
    let tournament_players := getTournamentPlayers st config.tournament_id
    let available_players :=
      (tournament_players.filter (fun p => p.2)).map (fun p => p.1)
    if available_players = [] then
      .error "No available players for this round"
    else if hasPendingMatches st config.tournament_id then
      .error "Previous round has pending matches"
    else
      let round_id := generate_id fresh
      let ordinal := getNextRoundOrdinal st config.tournament_id
      let st1 := { st with rounds := st.rounds ++
        [{ id := round_id, tournament_id := config.tournament_id,
           round_type := config.round_type, ordinal := ordinal }] }
      let result := strategyCreateMatches st1 config.round_type
        config.tournament_id round_id available_players config (fresh + 1)
      let st2 := { st1 with match_table := st1.match_table ++ result.1 }
      .ok ({ round_id := round_id, ordinal := ordinal,
             created_matches := result.1,
             waiting_players := result.2 }, st2)

/-- Matches of a tournament that are unresolved and not auto-byes (the
pending-match notion of the spec and of
`main.py:previous_round_pending_matches`). -/
def pendingNonByeCount (st : RepoState) (tournament_id : String) : Nat :=
  (st.match_table.filter (fun m =>
    m.tournament_id == tournament_id && m.result == none &&
      !m.auto_bye)).length

/-- Projection helpers for evaluating evidence scenarios. -/
def roundOutcome (e : Except String (RoundResult × RepoState)) : Bool :=
  match e with
  | .ok _ => true
  | .error _ => false

def roundState (e : Except String (RoundResult × RepoState))
    (d : RepoState) : RepoState :=
  match e with
  | .ok pr => pr.2
  | .error _ => d

def roundOrdinal (e : Except String (RoundResult × RepoState)) : Nat :=
  match e with
  | .ok pr => pr.1.ordinal
  | .error _ => 0

def recOutcome (e : Except String RepoState) : Bool :=
  match e with
  | .ok _ => true
  | .error _ => false

def recState (e : Except String RepoState) (d : RepoState) : RepoState :=
  match e with
  | .ok s => s
  | .error _ => d

/-- A two-player tournament state with an empty round history, used for
the C3/C8 evidence. -/
def twoPlayerState : RepoState :=
  { players_table := ["a", "b"],
    tournament_players := [(("T", "a"), true), (("T", "b"), true)],
    rounds := [],
    match_table := [],
    stats := [(("T", "a"), {}), (("T", "b"), {})],
    waiting_list := [] }

def rrConfig : RoundConfig :=
  { tournament_id := "T", round_type := "roundrobin", players_per_match := 2 }

/-- **C3 (violated by the code).**  `_has_pending_matches` is a stub that
returns `False`, so `create_round` never raises `PendingMatchesExist`:
with an unresolved match from the first round still pending, a second
`create_round` call succeeds and creates a second round. -/
theorem create_round_pending_stub_c3 :
    roundOutcome (create_round twoPlayerState rrConfig 0) = true
    ∧ pendingNonByeCount
        (roundState (create_round twoPlayerState rrConfig 0) twoPlayerState)
        "T" = 1
    ∧ roundOutcome (create_round
        (roundState (create_round twoPlayerState rrConfig 0) twoPlayerState)
        rrConfig 10) = true
    ∧ (roundState (create_round
        (roundState (create_round twoPlayerState rrConfig 0) twoPlayerState)
        rrConfig 10) twoPlayerState).rounds.length = 2 := by
  decide

/-- **C8 (violated by the code).**  `_get_next_round_ordinal` is a stub
that returns `1`, so both the first and the second round receive ordinal
`1`: the ordinal sequence is `[1, 1]`, not `[1, 2]`. -/
theorem create_round_ordinal_stub_c8 :
    roundOrdinal (create_round twoPlayerState rrConfig 0) = 1
    ∧ roundOrdinal (create_round
        (roundState (create_round twoPlayerState rrConfig 0) twoPlayerState)
        rrConfig 10) = 1
    ∧ ((roundState (create_round
          (roundState (create_round twoPlayerState rrConfig 0) twoPlayerState)
          rrConfig 10) twoPlayerState).rounds.map
        (fun r => r.ordinal)) = [1, 1] := by
  decide

/-- A decided knockout tournament: one eligible player left, a knockout
round already played.  Used for the C7 evidence. -/
def decidedState : RepoState :=
  { players_table := ["a", "b"],
    tournament_players := [(("T", "a"), true), (("T", "b"), false)],
    rounds := [{ id := "r1", tournament_id := "T", round_type := "knockout",
                 ordinal := 1 }],
    match_table := [{ id := "m1", round_id := "r1", tournament_id := "T",
                      player_ids := ["a", "b"], scheduled_at := now_iso,
                      result := some "complete", winner_ids := some ["a"],
                      rankings := some [("a", 1), ("b", 2)],
                      auto_bye := false, players_per_match := 2 }],
    stats := [(("T", "a"), {}), (("T", "b"), {})],
    waiting_list := [] }

def koConfig : RoundConfig :=
  { tournament_id := "T", round_type := "knockout", players_per_match := 2 }

/-- **C7 (violated by the code).**  `TournamentService.create_round` has
no decided-tournament check: in the terminal state (one eligible player,
a knockout round already exists) it succeeds, creates a new round and an
auto-bye match instead of failing. -/
theorem create_round_no_terminal_check_c7 :
    ((getTournamentPlayers decidedState "T").filter (fun p => p.2)).length
        = 1
    ∧ (decidedState.rounds.filter
        (fun r => r.round_type == "knockout")).length = 1
    ∧ roundOutcome (create_round decidedState koConfig 5) = true
    ∧ (roundState (create_round decidedState koConfig 5)
        decidedState).rounds.length = 2
    ∧ ((roundState (create_round decidedState koConfig 5)
        decidedState).match_table.filter (fun m => m.auto_bye)).length
        = 1 := by
  decide

/-- A knockout round whose last pending match is about to be resolved
while two players sit on the waiting list.  Used for the C6 evidence. -/
def waitingState : RepoState :=
  { players_table := ["a", "b", "w1", "w2"],
    tournament_players := [(("T", "a"), true), (("T", "b"), true),
      (("T", "w1"), true), (("T", "w2"), true)],
    rounds := [{ id := "r1", tournament_id := "T", round_type := "knockout",
                 ordinal := 1 }],
    match_table := [{ id := "m1", round_id := "r1", tournament_id := "T",
                      player_ids := ["a", "b"], scheduled_at := now_iso,
                      auto_bye := false, players_per_match := 2 }],
    stats := [(("T", "a"), {}), (("T", "b"), {}), (("T", "w1"), {}),
      (("T", "w2"), {})],
    waiting_list := [("T", "w1"), ("T", "w2")] }

def waitingResult : MatchResult :=
  { match_id := "m1", winner_ids := ["a"],
    rankings := [("a", 1), ("b", 2)], is_draw := false }

/-- **C6 (violated by the code).**  `record_match_result` performs no
waiting-list reconciliation: after it resolves the last pending match of
the latest knockout round, the two waiting players are left on the
waiting list and no new match is created. -/
theorem record_result_no_reconciliation_c6 :
    recOutcome (record_match_result waitingState "m1" waitingResult none)
        = true
    ∧ pendingNonByeCount
        (recState (record_match_result waitingState "m1" waitingResult none)
          waitingState) "T" = 0
    ∧ (recState (record_match_result waitingState "m1" waitingResult none)
        waitingState).waiting_list = [("T", "w1"), ("T", "w2")]
    ∧ (recState (record_match_result waitingState "m1" waitingResult none)
        waitingState).match_table.length = 1 := by
  decide

/-! ## Shared lemmas about the repository operations -/

/-- A projection untouched by every step of a fold is untouched by the
fold. -/
theorem foldl_preserve {α σ β : Type} (f : σ → α → σ) (proj : σ → β)
    (h : ∀ s a, proj (f s a) = proj s) :
    ∀ (l : List α) (s : σ), proj (l.foldl f s) = proj s := by
  intro l
  induction l with
  | nil => intro s; rfl
  | cons a t ih => intro s; rw [List.foldl_cons, ih, h]

/-- `lookup` through an association-list point update. -/
theorem lookup_map_set {K B : Type} [BEq K] [LawfulBEq K] [DecidableEq K]
    (l : List (K × B)) (k0 : K) (b0 : B) (k : K) :
    (l.map (fun row => if row.1 = k0 then (row.1, b0) else row)).lookup k =
      if k = k0 then (l.lookup k).map (fun _ => b0) else l.lookup k := by
  induction l with
  | nil => by_cases hk : k = k0 <;> simp [hk]
  | cons a t ih =>
    obtain ⟨ka, ba⟩ := a
    by_cases hk : k = ka
    · subst hk
      by_cases hka : k = k0
      · subst hka; simp [List.lookup_cons]
      · simp only [List.map_cons]
        rw [if_neg (by simpa using hka)]
        simp [List.lookup_cons, hka]
    · have hbk : (k == ka) = false := by simp [hk]
      by_cases hka : ka = k0
      · subst hka
        simp only [List.map_cons, if_pos rfl]
        simp [List.lookup_cons, hbk, ih]
      · simp only [List.map_cons]
        rw [if_neg (by simpa using hka)]
        simp [List.lookup_cons, hbk, ih]

/-- Componentwise sum of two standings rows. -/
def addStats (a b : Stats) : Stats :=
  { wins := a.wins + b.wins, draws := a.draws + b.draws,
    losses := a.losses + b.losses,
    matches_played := a.matches_played + b.matches_played,
    points := a.points + b.points }

/-- `n` copies of a standings row, summed. -/
def smulStats : Nat → Stats → Stats
  | 0, _ => {}
  | n + 1, d => addStats (smulStats n d) d

theorem addStats_right_comm (a b c : Stats) :
    addStats (addStats a b) c = addStats (addStats a c) b := by
  simp only [addStats, Stats.mk.injEq]
  refine ⟨?_, ?_, ?_, ?_, ?_⟩ <;> ring

theorem addStats_smul_succ (a d : Stats) (n : Nat) :
    addStats (addStats a d) (smulStats n d) =
      addStats a (smulStats (n + 1) d) := by
  show _ = addStats a (addStats (smulStats n d) d)
  simp only [addStats, Stats.mk.injEq]
  refine ⟨?_, ?_, ?_, ?_, ?_⟩ <;> ring

/-- The per-participant increment of `_update_player_statistics` (lines
195-210): one match played, one win, draw or loss, and the calculator's
points. -/
def statDelta (calculator : CalcFn) (m : Match) (result : MatchResult)
    (q : String) : Stats :=
  if result.is_draw then
    { draws := 1, matches_played := 1, points := calculator q m result }
  else if q ∈ result.winner_ids then
    { wins := 1, matches_played := 1, points := calculator q m result }
  else
    { losses := 1, matches_played := 1, points := calculator q m result }

/-- The loop body writes exactly the old row plus the increment. -/
theorem upsStep_eq (m : Match) (r : MatchResult) (c : CalcFn)
    (s : RepoState) (q : String) :
    upsStep m r c s q = updatePlayerStats s m.tournament_id q
      (addStats (getPlayerStatsS s m.tournament_id q) (statDelta c m r q)) := by
  by_cases hd : r.is_draw
  · simp [upsStep, statDelta, addStats, hd]
  · by_cases hw : q ∈ r.winner_ids
    · simp [upsStep, statDelta, addStats, hd, hw]
    · simp [upsStep, statDelta, addStats, hd, hw]

/-- `lookup` after `update_player_stats`: a point update of the map the
association list represents (`INSERT OR REPLACE`). -/
theorem lookup_updatePlayerStats (st : RepoState) (tid0 pid0 : String)
    (v : Stats) (k : String × String) :
    (updatePlayerStats st tid0 pid0 v).stats.lookup k =
      if k = (tid0, pid0) then some v else st.stats.lookup k := by
  show (if st.stats.any (fun row => row.1 == (tid0, pid0)) then
      st.stats.map (fun row =>
        if row.1 = (tid0, pid0) then (row.1, v) else row)
    else st.stats ++ [((tid0, pid0), v)]).lookup k = _
  by_cases hany : st.stats.any (fun row => row.1 == (tid0, pid0)) = true
  · rw [if_pos hany, lookup_map_set]
    by_cases hk : k = (tid0, pid0)
    · rw [if_pos hk, if_pos hk]
      have hsome : (st.stats.lookup (tid0, pid0)).isSome := by
        rw [List.lookup_isSome_iff]
        rw [List.any_eq_true] at hany
        obtain ⟨row, hrow, hbeq⟩ := hany
        refine ⟨row, hrow, ?_⟩
        rw [beq_iff_eq] at hbeq ⊢
        exact hbeq.symm
      obtain ⟨w, hw⟩ := Option.isSome_iff_exists.mp hsome
      rw [hk, hw, Option.map_some']
    · rw [if_neg hk, if_neg hk]
  · rw [if_neg hany, List.lookup_append]
    have hnone : st.stats.lookup (tid0, pid0) = none := by
      rw [List.lookup_eq_none_iff]
      intro row hrow
      have h1 : ¬(row.1 == (tid0, pid0)) = true := by
        intro hb
        exact hany (List.any_eq_true.mpr ⟨row, hrow, hb⟩)
      rw [beq_iff_eq] at h1
      simp only [bne_iff_ne]
      exact fun he => h1 he.symm
    by_cases hk : k = (tid0, pid0)
    · rw [if_pos hk, hk, hnone]
      simp [List.lookup_cons]
    · rw [if_neg hk]
      have hone : ([((tid0, pid0), v)] :
          List ((String × String) × Stats)).lookup k = none := by
        rw [List.lookup_eq_none_iff]
        intro row hrow
        rw [List.mem_singleton] at hrow
        subst hrow
        simp only [bne_iff_ne]
        exact hk
      rw [hone]
      cases st.stats.lookup k <;> rfl

theorem updatePlayerStats_players (st : RepoState) (tid0 pid0 : String)
    (v : Stats) :
    (updatePlayerStats st tid0 pid0 v).players_table = st.players_table := rfl

/-- The observable standing after `update_player_stats`. -/
theorem observed_updatePlayerStats (st : RepoState) (tid0 pid0 : String)
    (v : Stats) (tid p : String) :
    observedStanding (updatePlayerStats st tid0 pid0 v) tid p =
      if p ∈ st.players_table ∧ (tid, p) = (tid0, pid0) then some v
      else observedStanding st tid p := by
  show (if p ∈ (updatePlayerStats st tid0 pid0 v).players_table then
      (updatePlayerStats st tid0 pid0 v).stats.lookup (tid, p) else none) = _
  rw [updatePlayerStats_players, lookup_updatePlayerStats]
  by_cases hp : p ∈ st.players_table
  · by_cases hk : (tid, p) = ((tid0 : String), (pid0 : String))
    · rw [if_pos hp, if_pos hk, if_pos ⟨hp, hk⟩]
    · rw [if_pos hp, if_neg hk, if_neg (fun h => hk h.2), observedStanding,
        if_pos hp]
  · rw [if_neg hp, if_neg (fun h => hp h.1), observedStanding, if_neg hp]

theorem ups_players (st : RepoState) (m : Match) (r : MatchResult)
    (c : CalcFn) :
    (updatePlayerStatistics st m r c).players_table = st.players_table :=
  foldl_preserve (upsStep m r c) (fun s => s.players_table) (fun s q => rfl)
    m.player_ids st

theorem ups_match_table (st : RepoState) (m : Match) (r : MatchResult)
    (c : CalcFn) :
    (updatePlayerStatistics st m r c).match_table = st.match_table :=
  foldl_preserve (upsStep m r c) (fun s => s.match_table) (fun s q => rfl)
    m.player_ids st

theorem ups_rounds (st : RepoState) (m : Match) (r : MatchResult)
    (c : CalcFn) :
    (updatePlayerStatistics st m r c).rounds = st.rounds :=
  foldl_preserve (upsStep m r c) (fun s => s.rounds) (fun s q => rfl)
    m.player_ids st

theorem ups_roster (st : RepoState) (m : Match) (r : MatchResult)
    (c : CalcFn) :
    (updatePlayerStatistics st m r c).tournament_players =
      st.tournament_players :=
  foldl_preserve (upsStep m r c) (fun s => s.tournament_players)
    (fun s q => rfl) m.player_ids st

theorem hke_players (st : RepoState) (m : Match) (r : MatchResult) :
    (handleKnockoutElimination st m r).players_table = st.players_table := by
  refine Eq.trans (foldl_preserve
    (fun s w => activatePlayer s m.tournament_id w)
    (fun s => s.players_table) (fun s q => rfl) r.winner_ids
    (m.player_ids.foldl (fun s player_id =>
      if player_id ∈ r.winner_ids then s
      else eliminatePlayer s m.tournament_id player_id) st)) ?_
  exact foldl_preserve (fun s player_id =>
      if player_id ∈ r.winner_ids then s
      else eliminatePlayer s m.tournament_id player_id)
    (fun s => s.players_table)
    (fun s q => by by_cases h : q ∈ r.winner_ids <;> simp [h, eliminatePlayer])
    m.player_ids st

theorem hke_match_table (st : RepoState) (m : Match) (r : MatchResult) :
    (handleKnockoutElimination st m r).match_table = st.match_table := by
  refine Eq.trans (foldl_preserve
    (fun s w => activatePlayer s m.tournament_id w)
    (fun s => s.match_table) (fun s q => rfl) r.winner_ids
    (m.player_ids.foldl (fun s player_id =>
      if player_id ∈ r.winner_ids then s
      else eliminatePlayer s m.tournament_id player_id) st)) ?_
  exact foldl_preserve (fun s player_id =>
      if player_id ∈ r.winner_ids then s
      else eliminatePlayer s m.tournament_id player_id)
    (fun s => s.match_table)
    (fun s q => by by_cases h : q ∈ r.winner_ids <;> simp [h, eliminatePlayer])
    m.player_ids st

theorem hke_rounds (st : RepoState) (m : Match) (r : MatchResult) :
    (handleKnockoutElimination st m r).rounds = st.rounds := by
  refine Eq.trans (foldl_preserve
    (fun s w => activatePlayer s m.tournament_id w)
    (fun s => s.rounds) (fun s q => rfl) r.winner_ids
    (m.player_ids.foldl (fun s player_id =>
      if player_id ∈ r.winner_ids then s
      else eliminatePlayer s m.tournament_id player_id) st)) ?_
  exact foldl_preserve (fun s player_id =>
      if player_id ∈ r.winner_ids then s
      else eliminatePlayer s m.tournament_id player_id)
    (fun s => s.rounds)
    (fun s q => by by_cases h : q ∈ r.winner_ids <;> simp [h, eliminatePlayer])
    m.player_ids st

theorem hke_stats (st : RepoState) (m : Match) (r : MatchResult) :
    (handleKnockoutElimination st m r).stats = st.stats := by
  refine Eq.trans (foldl_preserve
    (fun s w => activatePlayer s m.tournament_id w)
    (fun s => s.stats) (fun s q => rfl) r.winner_ids
    (m.player_ids.foldl (fun s player_id =>
      if player_id ∈ r.winner_ids then s
      else eliminatePlayer s m.tournament_id player_id) st)) ?_
  exact foldl_preserve (fun s player_id =>
      if player_id ∈ r.winner_ids then s
      else eliminatePlayer s m.tournament_id player_id)
    (fun s => s.stats)
    (fun s q => by by_cases h : q ∈ r.winner_ids <;> simp [h, eliminatePlayer])
    m.player_ids st

theorem addStats_zero_right (a : Stats) : addStats a {} = a := by
  simp [addStats]

/-- The observable standing depends on the state only through the players
table and the stats table. -/
theorem observedStanding_ext {s t : RepoState}
    (h1 : s.players_table = t.players_table) (h2 : s.stats = t.stats)
    (tid p : String) :
    observedStanding s tid p = observedStanding t tid p := by
  rw [observedStanding, observedStanding, h1, h2]

/-- Closed form of the statistics loop at the observable level: a visible
participant gains one increment per occurrence in the iterated list;
everything else is untouched. -/
theorem observed_updFold (m : Match) (r : MatchResult) (c : CalcFn)
    (l : List String) :
    ∀ (s : RepoState) (tid p : String),
      observedStanding (l.foldl (upsStep m r c) s) tid p =
        if p ∈ s.players_table ∧ tid = m.tournament_id ∧ p ∈ l then
          some (addStats ((observedStanding s tid p).getD {})
            (smulStats (l.count p) (statDelta c m r p)))
        else observedStanding s tid p := by
  induction l with
  | nil =>
    intro s tid p
    rw [if_neg (by simp)]
    rfl
  | cons q t ih =>
    intro s tid p
    rw [List.foldl_cons, ih]
    have hpl : (upsStep m r c s q).players_table = s.players_table := rfl
    have hobs : observedStanding (upsStep m r c s q) tid p =
        if p ∈ s.players_table ∧ (tid, p) = (m.tournament_id, q) then
          some (addStats (getPlayerStatsS s m.tournament_id q)
            (statDelta c m r q))
        else observedStanding s tid p := by
      rw [upsStep_eq, observed_updatePlayerStats]
    rw [hpl, hobs]
    by_cases hv : p ∈ s.players_table
    · by_cases htid : tid = m.tournament_id
      · by_cases hpq : p = q
        · have hC2 : p ∈ s.players_table ∧
              (tid, p) = ((m.tournament_id : String), q) :=
            ⟨hv, by rw [htid, hpq]⟩
          have hC3 : p ∈ s.players_table ∧ tid = m.tournament_id ∧
              p ∈ q :: t := ⟨hv, htid, by rw [hpq]; exact List.mem_cons_self q t⟩
          have hcnt : (q :: t).count p = t.count p + 1 := by
            rw [hpq]; exact List.count_cons_self q t
          rw [if_pos hC2, if_pos hC3, hcnt]
          by_cases hpt : p ∈ t
          · have hC1 : p ∈ s.players_table ∧ tid = m.tournament_id ∧
                p ∈ t := ⟨hv, htid, hpt⟩
            rw [if_pos hC1, Option.getD_some]
            have hbase : getPlayerStatsS s m.tournament_id q =
                (observedStanding s tid p).getD {} := by
              rw [getPlayerStatsS, htid, hpq]
            rw [hbase, hpq, addStats_smul_succ]
          · have hC1 : ¬(p ∈ s.players_table ∧ tid = m.tournament_id ∧
                p ∈ t) := fun h => hpt h.2.2
            rw [if_neg hC1]
            have hcnt0 : t.count p = 0 := List.count_eq_zero.mpr hpt
            rw [hcnt0]
            have hbase : getPlayerStatsS s m.tournament_id q =
                (observedStanding s tid p).getD {} := by
              rw [getPlayerStatsS, htid, hpq]
            rw [hbase, hpq, ← addStats_smul_succ, ← hpq]
            show some _ = some (addStats _ (smulStats 0 _))
            rw [show smulStats 0 (statDelta c m r p) = ({} : Stats) from rfl,
              addStats_zero_right]
        · have hC2 : ¬(p ∈ s.players_table ∧
              (tid, p) = ((m.tournament_id : String), q)) :=
            fun h => hpq (by simpa using congrArg Prod.snd h.2)
          have hcnt : (q :: t).count p = t.count p :=
            List.count_cons_of_ne hpq t
          rw [if_neg hC2, hcnt]
          by_cases hpt : p ∈ t
          · have hC1 : p ∈ s.players_table ∧ tid = m.tournament_id ∧
                p ∈ t := ⟨hv, htid, hpt⟩
            have hC3 : p ∈ s.players_table ∧ tid = m.tournament_id ∧
                p ∈ q :: t := ⟨hv, htid, List.mem_cons_of_mem q hpt⟩
            rw [if_pos hC1, if_pos hC3]
          · have hC1 : ¬(p ∈ s.players_table ∧ tid = m.tournament_id ∧
                p ∈ t) := fun h => hpt h.2.2
            have hC3 : ¬(p ∈ s.players_table ∧ tid = m.tournament_id ∧
                p ∈ q :: t) := fun h => by
              rcases List.mem_cons.mp h.2.2 with h1 | h1
              · exact hpq h1
              · exact hpt h1
            rw [if_neg hC1, if_neg hC3]
      · have hC2 : ¬(p ∈ s.players_table ∧
            (tid, p) = ((m.tournament_id : String), q)) :=
          fun h => htid (by simpa using congrArg Prod.fst h.2)
        have hC1 : ¬(p ∈ s.players_table ∧ tid = m.tournament_id ∧
            p ∈ t) := fun h => htid h.2.1
        have hC3 : ¬(p ∈ s.players_table ∧ tid = m.tournament_id ∧
            p ∈ q :: t) := fun h => htid h.2.1
        rw [if_neg hC2, if_neg hC1, if_neg hC3]
    · have hC2 : ¬(p ∈ s.players_table ∧
          (tid, p) = ((m.tournament_id : String), q)) := fun h => hv h.1
      have hC1 : ¬(p ∈ s.players_table ∧ tid = m.tournament_id ∧
          p ∈ t) := fun h => hv h.1
      have hC3 : ¬(p ∈ s.players_table ∧ tid = m.tournament_id ∧
          p ∈ q :: t) := fun h => hv h.1
      rw [if_neg hC2, if_neg hC1, if_neg hC3]

/-- Closed form of `_update_player_statistics` at the observable level. -/
theorem observed_ups (st : RepoState) (m : Match) (r : MatchResult)
    (c : CalcFn) (tid p : String) :
    observedStanding (updatePlayerStatistics st m r c) tid p =
      if p ∈ st.players_table ∧ tid = m.tournament_id ∧ p ∈ m.player_ids then
        some (addStats ((observedStanding st tid p).getD {})
          (smulStats (m.player_ids.count p) (statDelta c m r p)))
      else observedStanding st tid p :=
  observed_updFold m r c m.player_ids st tid p

/-- Two states that present the same players table and the same visible
standings. -/
def StandEq (s t : RepoState) : Prop :=
  s.players_table = t.players_table ∧
  ∀ tid p, observedStanding s tid p = observedStanding t tid p

theorem standEq_refl (s : RepoState) : StandEq s s := ⟨rfl, fun _ _ => rfl⟩

theorem standEq_symm {s t : RepoState} (h : StandEq s t) : StandEq t s :=
  ⟨h.1.symm, fun tid p => (h.2 tid p).symm⟩

theorem standEq_trans {s t u : RepoState} (h1 : StandEq s t)
    (h2 : StandEq t u) : StandEq s u :=
  ⟨h1.1.trans h2.1, fun tid p => (h1.2 tid p).trans (h2.2 tid p)⟩

/-- The statistics loop is a congruence for `StandEq`. -/
theorem standEq_ups {s t : RepoState} (h : StandEq s t) (m : Match)
    (r : MatchResult) (c : CalcFn) :
    StandEq (updatePlayerStatistics s m r c)
      (updatePlayerStatistics t m r c) := by
  obtain ⟨hp, ho⟩ := h
  refine ⟨?_, ?_⟩
  · rw [ups_players, ups_players, hp]
  · intro tid p
    rw [observed_ups, observed_ups, hp, ho tid p]

/-- **Commutation core**: two statistics updates commute at the observable
level, whatever the two matches, results and calculators are. -/
theorem standEq_ups_comm (s : RepoState) (mX mY : Match)
    (rX rY : MatchResult) (cX cY : CalcFn) :
    StandEq
      (updatePlayerStatistics (updatePlayerStatistics s mX rX cX) mY rY cY)
      (updatePlayerStatistics (updatePlayerStatistics s mY rY cY) mX rX cX)
    := by
  refine ⟨?_, ?_⟩
  · rw [ups_players, ups_players, ups_players, ups_players]
  · intro tid p
    rw [observed_ups, observed_ups, observed_ups, observed_ups,
      ups_players, ups_players]
    by_cases hv : p ∈ s.players_table
    · by_cases hX : tid = mX.tournament_id ∧ p ∈ mX.player_ids
      · by_cases hY : tid = mY.tournament_id ∧ p ∈ mY.player_ids
        · rw [if_pos ⟨hv, hY⟩, if_pos ⟨hv, hX⟩, if_pos ⟨hv, hX⟩,
            if_pos ⟨hv, hY⟩, Option.getD_some, Option.getD_some,
            addStats_right_comm]
        · rw [if_neg (fun h => hY h.2), if_pos ⟨hv, hX⟩, if_pos ⟨hv, hX⟩,
            if_neg (fun h => hY h.2)]
      · by_cases hY : tid = mY.tournament_id ∧ p ∈ mY.player_ids
        · rw [if_pos ⟨hv, hY⟩, if_neg (fun h => hX h.2),
            if_neg (fun h => hX h.2), if_pos ⟨hv, hY⟩]
        · rw [if_neg (fun h => hY h.2), if_neg (fun h => hX h.2),
            if_neg (fun h => hX h.2), if_neg (fun h => hY h.2)]
    · rw [if_neg (fun h => hv h.1), if_neg (fun h => hv h.1),
        if_neg (fun h => hv h.1), if_neg (fun h => hv h.1)]

/-- One recorded result, with the repository exception propagated as a
no-op (the caller stops on the exception; for the order-independence
statement the failed call leaves the state untouched). -/
def recStep (s : RepoState) (it : String × MatchResult × Option String) :
    RepoState :=
  match record_match_result s it.1 it.2.1 it.2.2 with
  | .ok s' => s'
  | .error _ => s

/-- `record_match_result` applied to a list of (match id, result,
calculator name) triples in order. -/
def recordAllResults (st : RepoState)
    (items : List (String × MatchResult × Option String)) : RepoState :=
  items.foldl recStep st

theorem recStep_players (s : RepoState)
    (it : String × MatchResult × Option String) :
    (recStep s it).players_table = s.players_table := by
  unfold recStep record_match_result
  cases hm : getMatch s it.1 with
  | none => rfl
  | some m =>
    dsimp only
    by_cases hc : (getRoundType s m.round_id == some "knockout" &&
        !it.2.1.is_draw) = true
    · rw [if_pos hc]
      dsimp only
      rw [hke_players, ups_players]
      rfl
    · rw [if_neg hc]
      dsimp only
      rw [ups_players]
      rfl

theorem recStep_rounds (s : RepoState)
    (it : String × MatchResult × Option String) :
    (recStep s it).rounds = s.rounds := by
  unfold recStep record_match_result
  cases hm : getMatch s it.1 with
  | none => rfl
  | some m =>
    dsimp only
    by_cases hc : (getRoundType s m.round_id == some "knockout" &&
        !it.2.1.is_draw) = true
    · rw [if_pos hc]
      dsimp only
      rw [hke_rounds, ups_rounds]
      rfl
    · rw [if_neg hc]
      dsimp only
      rw [ups_rounds]
      rfl

theorem recStep_match_table (s : RepoState)
    (it : String × MatchResult × Option String) :
    (recStep s it).match_table =
      match getMatch s it.1 with
      | some _ => (updateMatchResult s it.1 it.2.1).match_table
      | none => s.match_table := by
  unfold recStep record_match_result
  cases hm : getMatch s it.1 with
  | none => rfl
  | some m =>
    dsimp only
    by_cases hc : (getRoundType s m.round_id == some "knockout" &&
        !it.2.1.is_draw) = true
    · rw [if_pos hc]; dsimp only; rw [hke_match_table, ups_match_table]
    · rw [if_neg hc]; dsimp only; rw [ups_match_table]

/-- At the observable level, one recorded result is exactly one
statistics update on the original state (or a no-op when the match id is
unknown). -/
theorem recStep_standEq (s : RepoState)
    (it : String × MatchResult × Option String) :
    StandEq (recStep s it)
      (match getMatch s it.1 with
       | some m => updatePlayerStatistics s m it.2.1 (calcOf it.2.2)
       | none => s) := by
  unfold recStep record_match_result
  cases hm : getMatch s it.1 with
  | none => exact standEq_refl s
  | some m =>
    dsimp only
    have humr : StandEq (updateMatchResult s it.1 it.2.1) s :=
      ⟨rfl, fun tid p => observedStanding_ext rfl rfl tid p⟩
    have hups : StandEq
        (updatePlayerStatistics (updateMatchResult s it.1 it.2.1) m it.2.1
          (calcOf it.2.2))
        (updatePlayerStatistics s m it.2.1 (calcOf it.2.2)) :=
      standEq_ups humr m it.2.1 (calcOf it.2.2)
    by_cases hc : (getRoundType s m.round_id == some "knockout" &&
        !it.2.1.is_draw) = true
    · rw [if_pos hc]
      dsimp only
      refine standEq_trans ?_ hups
      refine ⟨hke_players _ _ _, fun tid p => ?_⟩
      exact observedStanding_ext (hke_players _ _ _) (hke_stats _ _ _) tid p
    · rw [if_neg hc]
      dsimp only
      exact hups

/-- Two states the service cannot tell apart while recording results:
same players, matches and rounds, and the same visible standings. -/
def ObsEq (s t : RepoState) : Prop :=
  s.players_table = t.players_table ∧ s.match_table = t.match_table ∧
  s.rounds = t.rounds ∧
  ∀ tid p, observedStanding s tid p = observedStanding t tid p

theorem obsEq_refl (s : RepoState) : ObsEq s s := ⟨rfl, rfl, rfl, fun _ _ => rfl⟩

theorem obsEq_standEq {s t : RepoState} (h : ObsEq s t) : StandEq s t :=
  ⟨h.1, h.2.2.2⟩

theorem getMatch_ext {s t : RepoState} (h : s.match_table = t.match_table)
    (mid : String) : getMatch s mid = getMatch t mid := by
  rw [getMatch, getMatch, h]

/-- Recording one result is a congruence for `ObsEq`. -/
theorem obsEq_recStep {s t : RepoState} (h : ObsEq s t)
    (it : String × MatchResult × Option String) :
    ObsEq (recStep s it) (recStep t it) := by
  obtain ⟨hp, hmt, hr, ho⟩ := h
  have hgm : getMatch s it.1 = getMatch t it.1 := getMatch_ext hmt it.1
  refine ⟨?_, ?_, ?_, ?_⟩
  · rw [recStep_players, recStep_players, hp]
  · rw [recStep_match_table, recStep_match_table, hgm]
    cases getMatch t it.1 with
    | none => exact hmt
    | some m =>
      show (updateMatchResult s it.1 it.2.1).match_table = _
      rw [updateMatchResult, updateMatchResult, hmt]
  · rw [recStep_rounds, recStep_rounds, hr]
  · intro tid p
    have h1 := recStep_standEq s it
    have h2 := recStep_standEq t it
    have hmid : StandEq
        (match getMatch s it.1 with
         | some m => updatePlayerStatistics s m it.2.1 (calcOf it.2.2)
         | none => s)
        (match getMatch t it.1 with
         | some m => updatePlayerStatistics t m it.2.1 (calcOf it.2.2)
         | none => t) := by
      rw [← hgm]
      cases getMatch s it.1 with
      | none => exact ⟨hp, ho⟩
      | some m => exact standEq_ups ⟨hp, ho⟩ m it.2.1 (calcOf it.2.2)
    exact ((standEq_trans h1 (standEq_trans hmid (standEq_symm h2))).2) tid p

/-- Folding the same items over indistinguishable states keeps them
indistinguishable. -/
theorem obsEq_recordAll (l : List (String × MatchResult × Option String)) :
    ∀ {s t : RepoState}, ObsEq s t →
      ObsEq (recordAllResults s l) (recordAllResults t l) := by
  induction l with
  | nil => intro s t h; exact h
  | cons it l ih =>
    intro s t h
    show ObsEq (recordAllResults (recStep s it) l)
      (recordAllResults (recStep t it) l)
    exact ih (obsEq_recStep h it)

theorem applyResult_id (r : MatchResult) (m : Match) :
    (applyResult r m).id = m.id := rfl

/-- Patching one row does not disturb the lookup of another id. -/
theorem find_map_upd (mt : List Match) (mid mid' : String) (r : MatchResult)
    (h : mid ≠ mid') :
    (mt.map (fun m => if m.id = mid' then applyResult r m else m)).find?
        (fun m => m.id == mid) =
      mt.find? (fun m => m.id == mid) := by
  induction mt with
  | nil => rfl
  | cons a t ih =>
    rw [List.map_cons, List.find?_cons, List.find?_cons]
    by_cases ha : a.id = mid'
    · have hne : (a.id == mid) = false := by
        rw [beq_eq_false_iff_ne, ha]
        exact fun he => h he.symm
      have hne2 : ((if a.id = mid' then applyResult r a else a).id == mid)
          = false := by
        rw [if_pos ha, applyResult_id]
        exact hne
      rw [hne, hne2, ih]
    · rw [if_neg ha]
      cases hb : (a.id == mid) with
      | true => rfl
      | false => rw [ih]

/-- `get_match` for a different id is unaffected by recording a result. -/
theorem getMatch_recStep_ne (s : RepoState)
    (it : String × MatchResult × Option String) (mid : String)
    (h : mid ≠ it.1) :
    getMatch (recStep s it) mid = getMatch s mid := by
  rw [getMatch, recStep_match_table]
  cases getMatch s it.1 with
  | none => rfl
  | some m =>
    show (s.match_table.map (fun m =>
      if m.id = it.1 then applyResult it.2.1 m else m)).find?
        (fun m => m.id == mid) = _
    rw [find_map_upd s.match_table mid it.1 it.2.1 h]
    rfl

/-- Patches of two distinct rows commute. -/
theorem upd_table_comm (mt : List Match) (mid mid' : String)
    (r r' : MatchResult) (h : mid ≠ mid') :
    (mt.map (fun m => if m.id = mid then applyResult r m else m)).map
        (fun m => if m.id = mid' then applyResult r' m else m) =
      (mt.map (fun m => if m.id = mid' then applyResult r' m else m)).map
        (fun m => if m.id = mid then applyResult r m else m) := by
  rw [List.map_map, List.map_map]
  apply List.map_congr_left
  intro m hm
  dsimp only [Function.comp]
  by_cases h1 : m.id = mid
  · simp [h1, h, applyResult_id]
  · by_cases h2 : m.id = mid'
    · simp [h1, h2, Ne.symm h, applyResult_id]
    · simp [h1, h2]

theorem obsEq_trans {s t u : RepoState} (h1 : ObsEq s t) (h2 : ObsEq t u) :
    ObsEq s u :=
  ⟨h1.1.trans h2.1, h1.2.1.trans h2.2.1, h1.2.2.1.trans h2.2.2.1,
   fun tid p => (h1.2.2.2 tid p).trans (h2.2.2.2 tid p)⟩

theorem umr_table (st : RepoState) (mid : String) (r : MatchResult) :
    (updateMatchResult st mid r).match_table =
      st.match_table.map (fun m => if m.id = mid then applyResult r m else m)
    := rfl

/-- Recording two results with distinct match ids commutes, up to the
observable state. -/
theorem recStep_swap (s : RepoState)
    (x y : String × MatchResult × Option String) (hxy : x.1 ≠ y.1) :
    ObsEq (recStep (recStep s x) y) (recStep (recStep s y) x) := by
  have hgx : getMatch (recStep s y) x.1 = getMatch s x.1 :=
    getMatch_recStep_ne s y x.1 hxy
  have hgy : getMatch (recStep s x) y.1 = getMatch s y.1 :=
    getMatch_recStep_ne s x y.1 (Ne.symm hxy)
  have hsx := recStep_standEq s x
  have hsy := recStep_standEq s y
  have hLy := recStep_standEq (recStep s x) y
  have hRx := recStep_standEq (recStep s y) x
  rw [hgy] at hLy
  rw [hgx] at hRx
  refine ⟨?_, ?_, ?_, ?_⟩
  · rw [recStep_players, recStep_players, recStep_players, recStep_players]
  · rw [recStep_match_table (recStep s x) y,
      recStep_match_table (recStep s y) x, hgx, hgy]
    cases gx : getMatch s x.1 with
    | none =>
      cases gy : getMatch s y.1 with
      | none => simp only [recStep_match_table, gx, gy]
      | some my => simp only [recStep_match_table, gx, gy, umr_table]
    | some mx =>
      cases gy : getMatch s y.1 with
      | none => simp only [recStep_match_table, gx, gy, umr_table]
      | some my =>
        simp only [recStep_match_table, gx, gy, umr_table]
        exact upd_table_comm s.match_table x.1 y.1 x.2.1 y.2.1 hxy
  · rw [recStep_rounds, recStep_rounds, recStep_rounds, recStep_rounds]
  · cases gx : getMatch s x.1 with
    | none =>
      simp only [gx] at hsx hRx
      cases gy : getMatch s y.1 with
      | none =>
        simp only [gy] at hsy hLy
        exact (standEq_trans (standEq_trans hLy hsx)
          (standEq_symm (standEq_trans hRx hsy))).2
      | some my =>
        simp only [gy] at hsy hLy
        have h1 : StandEq (recStep (recStep s x) y)
            (updatePlayerStatistics s my y.2.1 (calcOf y.2.2)) :=
          standEq_trans hLy (standEq_ups hsx my y.2.1 (calcOf y.2.2))
        have h2 : StandEq (recStep (recStep s y) x)
            (updatePlayerStatistics s my y.2.1 (calcOf y.2.2)) :=
          standEq_trans hRx hsy
        exact (standEq_trans h1 (standEq_symm h2)).2
    | some mx =>
      simp only [gx] at hsx hRx
      cases gy : getMatch s y.1 with
      | none =>
        simp only [gy] at hsy hLy
        have h1 : StandEq (recStep (recStep s x) y)
            (updatePlayerStatistics s mx x.2.1 (calcOf x.2.2)) :=
          standEq_trans hLy hsx
        have h2 : StandEq (recStep (recStep s y) x)
            (updatePlayerStatistics s mx x.2.1 (calcOf x.2.2)) :=
          standEq_trans hRx (standEq_ups hsy mx x.2.1 (calcOf x.2.2))
        exact (standEq_trans h1 (standEq_symm h2)).2
      | some my =>
        simp only [gy] at hsy hLy
        have h1 : StandEq (recStep (recStep s x) y)
            (updatePlayerStatistics
              (updatePlayerStatistics s mx x.2.1 (calcOf x.2.2))
              my y.2.1 (calcOf y.2.2)) :=
          standEq_trans hLy (standEq_ups hsx my y.2.1 (calcOf y.2.2))
        have h2 : StandEq (recStep (recStep s y) x)
            (updatePlayerStatistics
              (updatePlayerStatistics s my y.2.1 (calcOf y.2.2))
              mx x.2.1 (calcOf x.2.2)) :=
          standEq_trans hRx (standEq_ups hsy mx x.2.1 (calcOf x.2.2))
        exact (standEq_trans h1 (standEq_trans
          (standEq_ups_comm s mx my x.2.1 y.2.1 (calcOf x.2.2)
            (calcOf y.2.2))
          (standEq_symm h2))).2

/-- Recording a fixed set of distinct matches in any order produces
observably equal states. -/
theorem recordAll_perm_aux :
    ∀ {items items' : List (String × MatchResult × Option String)},
      items.Perm items' →
      (items.map (fun it => it.1)).Nodup →
      ∀ s : RepoState,
        ObsEq (recordAllResults s items) (recordAllResults s items') := by
  intro items items' hperm
  induction hperm with
  | nil => intro _ s; exact obsEq_refl _
  | cons it hp ih =>
    intro hnd s
    have hnd' := (List.nodup_cons.mp hnd).2
    show ObsEq (recordAllResults (recStep s it) _)
      (recordAllResults (recStep s it) _)
    exact ih hnd' (recStep s it)
  | swap a b l =>
    intro hnd s
    have hba : b.1 ≠ a.1 := by
      simp only [List.map_cons, List.nodup_cons, List.mem_cons] at hnd
      exact fun he => hnd.1 (Or.inl he)
    show ObsEq (recordAllResults (recStep (recStep s b) a) l)
      (recordAllResults (recStep (recStep s a) b) l)
    exact obsEq_recordAll l (recStep_swap s b a hba)
  | trans h1 h2 ih1 ih2 =>
    intro hnd s
    have hnd2 := (h1.map (fun it => it.1)).nodup hnd
    exact obsEq_trans (ih1 hnd s) (ih2 hnd2 s)

/-- **C5.** For a fixed set of matches (distinct match ids) with their
results and calculator names, recording them through
`TournamentService.record_match_result` in any order yields the same
visible standings row (wins, draws, losses, matches played, points) for
every player of every tournament. -/
theorem record_results_order_independent_c5 (st : RepoState)
    (items items' : List (String × MatchResult × Option String))
    (hperm : items.Perm items')
    (hnd : (items.map (fun it => it.1)).Nodup) (tid p : String) :
    observedStanding (recordAllResults st items) tid p =
      observedStanding (recordAllResults st items') tid p :=
  (recordAll_perm_aux hperm hnd st).2.2.2 tid p

/-- A four-player round with two scheduled matches, used as the C5
witness input. -/
def c5State : RepoState :=
  { players_table := ["a", "b", "c", "d"],
    tournament_players := [(("T", "a"), true), (("T", "b"), true),
      (("T", "c"), true), (("T", "d"), true)],
    rounds := [{ id := "r1", tournament_id := "T",
                 round_type := "roundrobin", ordinal := 1 }],
    match_table :=
      [{ id := "m1", round_id := "r1", tournament_id := "T",
         player_ids := ["a", "b"], scheduled_at := now_iso,
         auto_bye := false, players_per_match := 2 },
       { id := "m2", round_id := "r1", tournament_id := "T",
         player_ids := ["c", "d"], scheduled_at := now_iso,
         auto_bye := false, players_per_match := 2 }],
    stats := [(("T", "a"), {}), (("T", "b"), {}), (("T", "c"), {}),
      (("T", "d"), {})],
    waiting_list := [] }

def c5I1 : String × MatchResult × Option String :=
  ("m1", { match_id := "m1", winner_ids := ["a"],
           rankings := [("a", 1), ("b", 2)], is_draw := false }, none)

def c5I2 : String × MatchResult × Option String :=
  ("m2", { match_id := "m2", winner_ids := ["c"],
           rankings := [("c", 1), ("d", 2)], is_draw := false },
   some "three_point")

/-- Witness for C5: the two matches recorded in either order give player
`a` the same visible standing. -/
theorem record_results_order_independent_c5_witness :
    observedStanding (recordAllResults c5State [c5I1, c5I2]) "T" "a" =
      observedStanding (recordAllResults c5State [c5I2, c5I1]) "T" "a" :=
  record_results_order_independent_c5 c5State [c5I1, c5I2] [c5I2, c5I1]
    (List.Perm.swap c5I2 c5I1 []) (by decide) "T" "a"

/-- **C10.** A single `record_match_result` call leaves the visible
standing of every player outside the resolved match's `player_ids`
unchanged, in every tournament. -/
theorem record_result_participants_only_c10 (st : RepoState)
    (match_id : String) (result : MatchResult) (cname : Option String)
    (m : Match) (st' : RepoState)
    (hm : getMatch st match_id = some m)
    (hok : record_match_result st match_id result cname = .ok st')
    (tid p : String) (hp : p ∉ m.player_ids) :
    observedStanding st' tid p = observedStanding st tid p := by
  unfold record_match_result at hok
  rw [hm] at hok
  dsimp only at hok
  by_cases hc : (getRoundType st m.round_id == some "knockout" &&
      !result.is_draw) = true
  · rw [if_pos hc] at hok
    have hst : st' = handleKnockoutElimination
        (updatePlayerStatistics (updateMatchResult st match_id result) m
          result (calcOf cname)) m result := by
      injection hok with h
      exact h.symm
    subst hst
    rw [observedStanding_ext (hke_players _ _ _) (hke_stats _ _ _) tid p,
      observed_ups, if_neg (fun h => hp h.2.2)]
    exact observedStanding_ext rfl rfl tid p
  · rw [if_neg hc] at hok
    have hst : st' = updatePlayerStatistics (updateMatchResult st match_id
        result) m result (calcOf cname) := by
      injection hok with h
      exact h.symm
    subst hst
    rw [observed_ups, if_neg (fun h => hp h.2.2)]
    exact observedStanding_ext rfl rfl tid p

/-- The scheduled a-versus-b match of the C10 witness. -/
def c10M : Match :=
  { id := "m1", round_id := "r1", tournament_id := "T",
    player_ids := ["a", "b"], scheduled_at := now_iso,
    auto_bye := false, players_per_match := 2 }

/-- Three roster players with one scheduled match, used as the C10
witness input. -/
def c10State : RepoState :=
  { players_table := ["a", "b", "c"],
    tournament_players := [(("T", "a"), true), (("T", "b"), true),
      (("T", "c"), true)],
    rounds := [{ id := "r1", tournament_id := "T",
                 round_type := "roundrobin", ordinal := 1 }],
    match_table := [c10M],
    stats := [(("T", "a"), {}), (("T", "b"), {}), (("T", "c"), {})],
    waiting_list := [] }

def c10R : MatchResult :=
  { match_id := "m1", winner_ids := ["a"],
    rankings := [("a", 1), ("b", 2)], is_draw := false }

/-- Witness for C10: resolving the a-versus-b match leaves bystander `c`'s
standing untouched. -/
theorem record_result_participants_only_c10_witness :
    observedStanding
        (recState (record_match_result c10State "m1" c10R none) c10State)
        "T" "c" =
      observedStanding c10State "T" "c" :=
  record_result_participants_only_c10 c10State "m1" c10R none c10M
    (recState (record_match_result c10State "m1" c10R none) c10State)
    rfl rfl "T" "c" (by decide)

theorem eligOf_ext {s t : RepoState}
    (h : s.tournament_players = t.tournament_players) (tid p : String) :
    eligOf s tid p = eligOf t tid p := by
  rw [eligOf, eligOf, h]

theorem eligOf_eliminatePlayer (st : RepoState) (tid0 pid0 tid p : String) :
    eligOf (eliminatePlayer st tid0 pid0) tid p =
      if (tid, p) = (tid0, pid0) then
        (eligOf st tid p).map (fun _ => false)
      else eligOf st tid p := by
  show (st.tournament_players.map (fun row =>
    if row.1 = (tid0, pid0) then (row.1, false) else row)).lookup (tid, p) = _
  rw [lookup_map_set]
  rfl

theorem eligOf_activatePlayer (st : RepoState) (tid0 pid0 tid p : String) :
    eligOf (activatePlayer st tid0 pid0) tid p =
      if (tid, p) = (tid0, pid0) then
        (eligOf st tid p).map (fun _ => true)
      else eligOf st tid p := by
  show (st.tournament_players.map (fun row =>
    if row.1 = (tid0, pid0) then (row.1, true) else row)).lookup (tid, p) = _
  rw [lookup_map_set]
  rfl

/-- The elimination loop of `_handle_knockout_elimination` (lines
227-230): every iterated non-winner of the tournament is switched to
ineligible, everything else is untouched. -/
theorem eligOf_elimFold (tid0 : String) (winners : List String)
    (l : List String) :
    ∀ (st : RepoState) (tid p : String),
      eligOf (l.foldl (fun s q => if q ∈ winners then s
        else eliminatePlayer s tid0 q) st) tid p =
      if tid = tid0 ∧ p ∈ l ∧ p ∉ winners then
        (eligOf st tid p).map (fun _ => false)
      else eligOf st tid p := by
  induction l with
  | nil =>
    intro st tid p
    rw [if_neg (by simp)]
    rfl
  | cons q t ih =>
    intro st tid p
    rw [List.foldl_cons, ih]
    by_cases hqw : q ∈ winners
    · rw [if_pos hqw]
      by_cases hC : tid = tid0 ∧ p ∈ t ∧ p ∉ winners
      · rw [if_pos hC,
          if_pos ⟨hC.1, List.mem_cons_of_mem q hC.2.1, hC.2.2⟩]
      · rw [if_neg hC, if_neg (fun h => hC ⟨h.1, by
            rcases List.mem_cons.mp h.2.1 with h1 | h1
            · exact absurd (h1.symm ▸ hqw : p ∈ winners) h.2.2
            · exact h1, h.2.2⟩)]
    · rw [if_neg hqw]
      simp only [eligOf_eliminatePlayer]
      by_cases hk : (tid, p) = ((tid0 : String), q)
      · obtain ⟨htid0, hpq⟩ : tid = tid0 ∧ p = q := by simpa using hk
        have hEE : ((eligOf st tid p).map (fun _ => false)).map
            (fun _ => false) = (eligOf st tid p).map (fun _ => false) := by
          cases eligOf st tid p <;> rfl
        simp only [if_pos hk, hEE, ite_self]
        rw [if_pos ⟨htid0, by rw [hpq]; exact List.mem_cons_self q t,
          fun hw => hqw (hpq ▸ hw)⟩]
      · simp only [if_neg hk]
        by_cases hC : tid = tid0 ∧ p ∈ t ∧ p ∉ winners
        · rw [if_pos hC,
            if_pos ⟨hC.1, List.mem_cons_of_mem q hC.2.1, hC.2.2⟩]
        · rw [if_neg hC, if_neg (fun h => hC ⟨h.1, by
              rcases List.mem_cons.mp h.2.1 with h1 | h1
              · exact absurd (by rw [h.1, h1] : (tid, p) =
                  ((tid0 : String), q)) hk
              · exact h1, h.2.2⟩)]

/-- The activation loop of `_handle_knockout_elimination` (lines
232-234): every winner of the tournament is switched to eligible. -/
theorem eligOf_actFold (tid0 : String) (w : List String) :
    ∀ (st : RepoState) (tid p : String),
      eligOf (w.foldl (fun s q => activatePlayer s tid0 q) st) tid p =
        if tid = tid0 ∧ p ∈ w then (eligOf st tid p).map (fun _ => true)
        else eligOf st tid p := by
  induction w with
  | nil =>
    intro st tid p
    rw [if_neg (by simp)]
    rfl
  | cons q t ih =>
    intro st tid p
    rw [List.foldl_cons, ih]
    simp only [eligOf_activatePlayer]
    by_cases hk : (tid, p) = ((tid0 : String), q)
    · obtain ⟨htid0, hpq⟩ : tid = tid0 ∧ p = q := by simpa using hk
      have hEE : ((eligOf st tid p).map (fun _ => true)).map
          (fun _ => true) = (eligOf st tid p).map (fun _ => true) := by
        cases eligOf st tid p <;> rfl
      simp only [if_pos hk, hEE, ite_self]
      rw [if_pos ⟨htid0, by rw [hpq]; exact List.mem_cons_self q t⟩]
    · simp only [if_neg hk]
      by_cases hC : tid = tid0 ∧ p ∈ t
      · rw [if_pos hC, if_pos ⟨hC.1, List.mem_cons_of_mem q hC.2⟩]
      · rw [if_neg hC, if_neg (fun h => hC ⟨h.1, by
            rcases List.mem_cons.mp h.2 with h1 | h1
            · exact absurd (by rw [h.1, h1] : (tid, p) =
                ((tid0 : String), q)) hk
            · exact h1⟩)]

/-- `_handle_knockout_elimination` (lines 224-234) as seen through the
roster: winners end eligible, losing participants end ineligible, and
nobody else changes. -/
theorem eligOf_hke (st : RepoState) (m : Match) (r : MatchResult)
    (tid p : String) :
    eligOf (handleKnockoutElimination st m r) tid p =
      if tid = m.tournament_id then
        (if p ∈ r.winner_ids then (eligOf st tid p).map (fun _ => true)
         else if p ∈ m.player_ids then
           (eligOf st tid p).map (fun _ => false)
         else eligOf st tid p)
      else eligOf st tid p := by
  show eligOf (r.winner_ids.foldl
    (fun s w => activatePlayer s m.tournament_id w)
    (m.player_ids.foldl (fun s player_id =>
      if player_id ∈ r.winner_ids then s
      else eliminatePlayer s m.tournament_id player_id) st)) tid p = _
  rw [eligOf_actFold, eligOf_elimFold]
  by_cases htid : tid = m.tournament_id
  · by_cases hw : p ∈ r.winner_ids
    · rw [if_pos ⟨htid, hw⟩, if_neg (fun h => h.2.2 hw), if_pos htid,
        if_pos hw]
    · rw [if_neg (fun h => hw h.2), if_pos htid, if_neg hw]
      by_cases hp : p ∈ m.player_ids
      · rw [if_pos ⟨htid, hp, hw⟩, if_pos hp]
      · rw [if_neg (fun h => hp h.2.1), if_neg hp]
  · rw [if_neg (fun h => htid h.1), if_neg (fun h => htid h.1),
      if_neg htid]

/-- **C4.** When `record_match_result` resolves a match of a knockout
round with a non-draw result, exactly the participants outside
`winner_ids` become ineligible and every winner becomes eligible; for a
draw, no roster eligibility changes at all.  The repository primitives
`get_round_type`, `eliminate_player` and `activate_player` are modelled
from the spec (they are declared on the interface but left out of
`SQLiteTournamentRepository`). -/
theorem record_result_knockout_elimination_c4 (st : RepoState)
    (match_id : String) (result : MatchResult) (cname : Option String)
    (m : Match) (st' : RepoState)
    (hm : getMatch st match_id = some m)
    (hok : record_match_result st match_id result cname = .ok st')
    (hko : getRoundType st m.round_id = some "knockout") (p : String) :
    (result.is_draw = false →
      eligOf st' m.tournament_id p =
        (if p ∈ result.winner_ids then
          (eligOf st m.tournament_id p).map (fun _ => true)
         else if p ∈ m.player_ids then
          (eligOf st m.tournament_id p).map (fun _ => false)
         else eligOf st m.tournament_id p))
    ∧ (result.is_draw = true →
      ∀ tid q, eligOf st' tid q = eligOf st tid q) := by
  unfold record_match_result at hok
  rw [hm] at hok
  dsimp only at hok
  constructor
  · intro hnd
    have hc : (getRoundType st m.round_id == some "knockout" &&
        !result.is_draw) = true := by
      rw [hko, hnd]
      rfl
    rw [if_pos hc] at hok
    have hst : st' = handleKnockoutElimination
        (updatePlayerStatistics (updateMatchResult st match_id result) m
          result (calcOf cname)) m result := by
      injection hok with h
      exact h.symm
    subst hst
    have hroster : (updatePlayerStatistics
        (updateMatchResult st match_id result) m result
        (calcOf cname)).tournament_players = st.tournament_players := by
      rw [ups_roster]
      rfl
    rw [eligOf_hke, if_pos rfl]
    simp only [eligOf_ext hroster]
  · intro hd
    have hc : ¬(getRoundType st m.round_id == some "knockout" &&
        !result.is_draw) = true := by
      rw [hd]
      simp
    rw [if_neg hc] at hok
    have hst : st' = updatePlayerStatistics
        (updateMatchResult st match_id result) m result (calcOf cname) := by
      injection hok with h
      exact h.symm
    subst hst
    intro tid q
    have hroster : (updatePlayerStatistics
        (updateMatchResult st match_id result) m result
        (calcOf cname)).tournament_players = st.tournament_players := by
      rw [ups_roster]
      rfl
    exact eligOf_ext hroster tid q

/-- The pending a-versus-b knockout match of the C4 witness. -/
def c4M : Match :=
  { id := "m1", round_id := "r1", tournament_id := "T",
    player_ids := ["a", "b"], scheduled_at := now_iso,
    auto_bye := false, players_per_match := 2 }

/-- A knockout round about to be resolved, used as the C4 witness
input. -/
def c4State : RepoState :=
  { players_table := ["a", "b"],
    tournament_players := [(("T", "a"), true), (("T", "b"), true)],
    rounds := [{ id := "r1", tournament_id := "T",
                 round_type := "knockout", ordinal := 1 }],
    match_table := [c4M],
    stats := [(("T", "a"), {}), (("T", "b"), {})],
    waiting_list := [] }

def c4R : MatchResult :=
  { match_id := "m1", winner_ids := ["a"],
    rankings := [("a", 1), ("b", 2)], is_draw := false }

/-- The state after the C4 witness call. -/
def c4After : RepoState :=
  recState (record_match_result c4State "m1" c4R none) c4State

/-- Witness for C4 at the concrete knockout state, observing loser
`b`. -/
theorem record_result_knockout_elimination_c4_witness :
    (c4R.is_draw = false →
      eligOf c4After c4M.tournament_id "b" =
        (if "b" ∈ c4R.winner_ids then
          (eligOf c4State c4M.tournament_id "b").map (fun _ => true)
         else if "b" ∈ c4M.player_ids then
          (eligOf c4State c4M.tournament_id "b").map (fun _ => false)
         else eligOf c4State c4M.tournament_id "b"))
    ∧ (c4R.is_draw = true →
      ∀ tid q, eligOf c4After tid q = eligOf c4State tid q) :=
  record_result_knockout_elimination_c4 c4State "m1" c4R none c4M c4After
    rfl rfl rfl "b"

end Matchmaker
